import Mathlib

/-!
Verification development for the KolkoKosta archive-access and query pipeline.

The TypeScript sources are shallowly embedded: JS strings become `List Char`,
JS numbers used for prices become `Rat` (with a dedicated constructor for the
`NaN` / `null` distinction on optional fields), database tables become lists of
typed rows, and the I/O layer (HTTP range requests, SQLite statements) is
modelled by explicit environments and oracles.  Every definition is translated
from the repository sources; definitions that instead follow the
specification's words (for refinement comparisons) say so in their doc comment.
-/

namespace KolkoKosta

/-- JS strings are modelled as lists of characters. -/
abbrev Str := List Char

/-- Model of `String.prototype.trim`: drop leading and trailing whitespace. -/
def trimL (s : Str) : Str :=
  ((s.dropWhile Char.isWhitespace).reverse.dropWhile Char.isWhitespace).reverse

/-- Model of `String.prototype.toLowerCase` (exact on the ASCII range, which is
all the embedded properties depend on). -/
def toLowerL (s : Str) : Str := s.map Char.toLower

/-- Model of `String.prototype.split(sep)` with a single-character separator:
`"".split(c) = [""]`, separators delimit possibly empty fields. -/
def splitCh (c : Char) : Str → List Str
  | [] => [[]]
  | x :: xs =>
    if x = c then [] :: splitCh c xs
    else
      match splitCh c xs with
      | [] => [[x]]
      | y :: ys => (x :: y) :: ys

/-- Whether `pat` occurs at the start of `hay`. -/
def startsWithL : Str → Str → Bool
  | _, [] => true
  | [], _ :: _ => false
  | a :: as, b :: bs => a = b && startsWithL as bs

/-- Model of `String.prototype.includes`: `pat` occurs contiguously in `hay`. -/
def hasSubL : Str → Str → Bool
  | [], pat => pat.isEmpty
  | a :: t, pat => startsWithL (a :: t) pat || hasSubL t pat

/-- Lexicographic strict order on character lists; models `localeCompare` of the
ASCII `YYYY-MM-DD` date strings the code sorts. -/
def strLt : Str → Str → Bool
  | [], [] => false
  | [], _ :: _ => true
  | _ :: _, [] => false
  | a :: as, b :: bs => a < b || (a = b && strLt as bs)

/-- Non-strict lexicographic order on character lists. -/
def strLe (a b : Str) : Bool := strLt a b || a = b

/-- One step of the character scan inside `parseCSVText`: a quote toggles
`inQuotes`, a comma outside quotes closes the current field, any other
character is appended to the current field. -/
def csvStep (st : List Str × Str × Bool) (ch : Char) : List Str × Str × Bool :=
  let values := st.1
  let current := st.2.1
  let inQuotes := st.2.2
  if ch = '"' then (values, current, !inQuotes)
  else if ch = ',' && !inQuotes then (values ++ [current], [], inQuotes)
  else (values, current ++ [ch], inQuotes)

/-- Quote-aware field split of one CSV line (the inner loop of `parseCSVText`);
the final `values.push(current)` is the appended singleton. -/
def parseLineVals (line : Str) : List Str :=
  let st := line.foldl csvStep ([], [], false)
  st.1 ++ [st.2.1]

/-- JS object property assignment `row[k] = v` on a string-keyed record:
overwrites the value of an existing key, otherwise appends the binding. -/
def objSet (row : List (Str × Str)) (k v : Str) : List (Str × Str) :=
  if row.any (fun e => e.1 = k) then
    row.map (fun e => if e.1 = k then (k, v) else e)
  else row ++ [(k, v)]

/-- JS property read `row[k] || ""`: the stored value, or empty when absent. -/
def objGet (row : List (Str × Str)) (k : Str) : Str :=
  match row.find? (fun e => e.1 = k) with
  | some e => e.2
  | none => []

/-- Build one CSV record: `headers.forEach((header, idx) =>
row[header.trim()] = (values[idx] || "").trim())`. -/
def mkRow (headers : List Str) (values : List Str) : List (Str × Str) :=
  headers.enum.foldl
    (fun row e => objSet row (trimL e.2) (trimL (values.getD e.1 []))) []

/-- Embedding of `parseCSVText` (`src/lib/cijene.ts`): split the text on
newlines; fewer than two lines yields no records; the first line (trimmed and
split on commas) is the header; blank data lines are skipped; every remaining
line becomes a record keyed by trimmed header names. -/
def parseCSVText (text : Str) : List (List (Str × Str)) :=
  let lines := splitCh '\n' text
  if lines.length < 2 then []
  else
    let headers := splitCh ',' (trimL (lines.headD []))
    (lines.drop 1).foldl
      (fun results l =>
        let line := trimL l
        if line = [] then results
        else results ++ [mkRow headers (parseLineVals line)])
      []

/-- Numeric value of a run of decimal digit characters. -/
def digitsToNat (ds : Str) : Nat :=
  ds.foldl (fun acc c => 10 * acc + (c.toNat - '0'.toNat)) 0

/-- Model of the JS `parseFloat` builtin on finite decimal inputs: skip leading
whitespace, then an optional sign, decimal digits, an optional fraction and an
optional exponent, parsing the longest valid prefix; `none` models `NaN` (no
digit found).  `Infinity` literals do not occur in the price CSVs and are not
modelled. -/
def parseFloatQ (s0 : Str) : Option Rat :=
  let s := s0.dropWhile Char.isWhitespace
  let sign : Rat :=
    match s with
    | '-' :: _ => -1
    | _ => 1
  let s1 : Str :=
    match s with
    | '-' :: r => r
    | '+' :: r => r
    | _ => s
  let intPart := s1.takeWhile Char.isDigit
  let s2 := s1.dropWhile Char.isDigit
  let fracPart : Str :=
    match s2 with
    | '.' :: r => r.takeWhile Char.isDigit
    | _ => []
  let s3 : Str :=
    match s2 with
    | '.' :: r => r.dropWhile Char.isDigit
    | _ => s2
  if intPart = [] && fracPart = [] then none
  else
    let mantissa : Rat :=
      (digitsToNat intPart : Rat) + (digitsToNat fracPart : Rat) / ((10 : Rat) ^ fracPart.length)
    let expVal : Int :=
      match s3 with
      | 'e' :: '-' :: r => -(digitsToNat (r.takeWhile Char.isDigit) : Int)
      | 'e' :: '+' :: r => (digitsToNat (r.takeWhile Char.isDigit) : Int)
      | 'e' :: r => (digitsToNat (r.takeWhile Char.isDigit) : Int)
      | 'E' :: '-' :: r => -(digitsToNat (r.takeWhile Char.isDigit) : Int)
      | 'E' :: '+' :: r => (digitsToNat (r.takeWhile Char.isDigit) : Int)
      | 'E' :: r => (digitsToNat (r.takeWhile Char.isDigit) : Int)
      | _ => 0
    some (sign * mantissa * (10 : Rat) ^ expVal)

/-- Value of a nullable JS number column: `null`, `NaN`, or a rational. -/
inductive RealVal
  | nullV
  | nanV
  | numV (q : Rat)
deriving DecidableEq

/-- Coercion of the mandatory `price` field during ingest and the zip path:
`parseFloat(r.price) || 0` — the JS `||` maps both `NaN` and `0` to `0`. -/
def coercePrice (s : Str) : Rat :=
  match parseFloatQ s with
  | none => 0
  | some q => if q = 0 then 0 else q

/-- Coercion of the four optional real fields:
`r.f ? parseFloat(r.f) : null` — the empty string is falsy and yields `null`;
a non-empty field goes to `parseFloat`, whose failure value is `NaN`. -/
def coerceOptional (s : Str) : RealVal :=
  if s = [] then .nullV
  else
    match parseFloatQ s with
    | none => .nanV
    | some q => .numV q

/-- One parsed ZIP central-directory entry. -/
structure ZipEntry where
  filename : Str
  compressedSize : Nat
  uncompressedSize : Nat
  localHeaderOffset : Nat
  compressionMethod : Nat
deriving DecidableEq

/-- Inclusive HTTP byte-range fetch `fetchRange(url, start, end)` over an
archive modelled as its byte list. -/
def fetchRangeL (archive : List Nat) (start endIdx : Nat) : List Nat :=
  (archive.drop start).take (endIdx + 1 - start)

/-- Byte read `view.getUint8(i)`; out-of-range reads yield 0 (they do not
occur on well-formed archives). -/
def byteAt (b : List Nat) (i : Nat) : Nat := b.getD i 0

/-- Little-endian 16-bit read at `off` (`readUint16LE`). -/
def readUint16LE (b : List Nat) (off : Nat) : Nat :=
  byteAt b off + 256 * byteAt b (off + 1)

/-- Little-endian 32-bit read at `off` (`readUint32LE`). -/
def readUint32LE (b : List Nat) (off : Nat) : Nat :=
  byteAt b off + 256 * byteAt b (off + 1) + 65536 * byteAt b (off + 2) +
    16777216 * byteAt b (off + 3)

/-- Whether the EOCD signature `0x06054b50` (byte order `50 4b 05 06`) sits at
index `i`. -/
def eocdSigAt (b : List Nat) (i : Nat) : Bool :=
  byteAt b i = 0x50 && byteAt b (i + 1) = 0x4b && byteAt b (i + 2) = 0x05 &&
    byteAt b (i + 3) = 0x06

/-- Backward scan for the EOCD signature from index `i` down to 0
(`for (let i = tailBuffer.byteLength - 22; i >= 0; i--)`). -/
def scanEocd (b : List Nat) : Nat → Option Nat
  | 0 => if eocdSigAt b 0 then some 0 else none
  | i + 1 => if eocdSigAt b (i + 1) then some (i + 1) else scanEocd b i

/-- Trailing window fetched by `getZipEntries` before the EOCD scan:
`tailSize = Math.min(65536 + 22, fileSize)` followed by
`fetchRange(url, fileSize - tailSize, fileSize - 1)`. -/
def zipTailWindow (archive : List Nat) : List Nat :=
  let fileSize := archive.length
  let tailSize := min (65536 + 22) fileSize
  fetchRangeL archive (fileSize - tailSize) (fileSize - 1)

/-- Central-directory walk of `getZipEntries`: read fixed-layout headers at
`pos` while `pos < cd.length - 4` and the entry signature `0x02014b50`
matches; filename bytes are decoded into characters.  The fuel argument only
bounds the loop formally (each step advances `pos` by at least 46). -/
def walkCD (cd : List Nat) : Nat → Nat → List ZipEntry
  | _, 0 => []
  | pos, fuel + 1 =>
    if pos < cd.length - 4 then
      if byteAt cd pos = 0x50 && byteAt cd (pos + 1) = 0x4b &&
          byteAt cd (pos + 2) = 0x01 && byteAt cd (pos + 3) = 0x02 then
        let compressionMethod := readUint16LE cd (pos + 10)
        let compressedSize := readUint32LE cd (pos + 20)
        let uncompressedSize := readUint32LE cd (pos + 24)
        let filenameLength := readUint16LE cd (pos + 28)
        let extraLength := readUint16LE cd (pos + 30)
        let commentLength := readUint16LE cd (pos + 32)
        let localHeaderOffset := readUint32LE cd (pos + 42)
        let filename := ((cd.drop (pos + 46)).take filenameLength).map Char.ofNat
        ⟨filename, compressedSize, uncompressedSize, localHeaderOffset, compressionMethod⟩ ::
          walkCD cd (pos + 46 + filenameLength + extraLength + commentLength) fuel
      else []
    else []

/-- Embedding of `getZipEntries` (ZIP directory discovery, identical in
`src/lib/cijene.ts` and the ingest script): fetch the trailing window, scan it
backward for the EOCD signature, read `cdSize` (+12) and `cdOffset` (+16),
fetch exactly the central-directory range and walk it. -/
def getZipEntries (archive : List Nat) : Except Str (List ZipEntry) :=
  let tailBuffer := zipTailWindow archive
  let eocd : Option Nat :=
    if tailBuffer.length < 22 then none
    else scanEocd tailBuffer (tailBuffer.length - 22)
  match eocd with
  | none => .error ("Could not find ZIP End of Central Directory".data)
  | some eocdOffset =>
    let cdSize := readUint32LE tailBuffer (eocdOffset + 12)
    let cdOffset := readUint32LE tailBuffer (eocdOffset + 16)
    let cdBuffer := fetchRangeL archive cdOffset (cdOffset + cdSize - 1)
    .ok (walkCD cdBuffer 0 cdBuffer.length)

/-- Store record of the zip path (`Store` interface in `cijene.ts`). -/
structure Store where
  store_id : Str
  type : Str
  address : Str
  city : Str
  zipcode : Str
  chain : Str
deriving DecidableEq

/-- Product record (`Product` interface in `cijene.ts`). -/
structure Product where
  product_id : Str
  barcode : Str
  name : Str
  brand : Str
  category : Str
  unit : Str
  quantity : Str
  chain : Str
deriving DecidableEq

/-- Price record (`Price` interface in `cijene.ts`). -/
structure Price where
  store_id : Str
  product_id : Str
  price : Rat
  unit_price : RealVal
  best_price_30 : RealVal
  anchor_price : RealVal
  special_price : RealVal
  chain : Str
deriving DecidableEq

/-- One price attached to a merged product group. -/
structure AttachedPrice where
  chain : Str
  store : Store
  price : Rat
  unit_price : RealVal
  best_price_30 : RealVal
  anchor_price : RealVal
  special_price : RealVal
deriving DecidableEq

/-- A merged product group (`ProductWithPrices`). -/
structure ProductWithPrices where
  product : Product
  prices : List AttachedPrice
deriving DecidableEq

/-- One day of archive data (`ArchiveData`). -/
structure ArchiveData where
  stores : List Store
  products : List Product
  prices : List Price
  date : Str
deriving DecidableEq

/-- Key string `chain + ":" + id` used for the store index and the merge key. -/
def joinKey (chain id : Str) : Str := chain ++ ':' :: id

/-- Fingerprint key of the product merge as computed by the sources:
`product.barcode || chain + ":" + product_id`. -/
def fpKey (p : Product) : Str :=
  if p.barcode = [] then joinKey p.chain p.product_id else p.barcode

/-- Display product stored when a merge group is created:
`{ ...product, name: product.name || "Nepoznat proizvod" }`. -/
def displayP (p : Product) : Product :=
  { p with name := if p.name = [] then "Nepoznat proizvod".data else p.name }

/-- City-filtered store list of `searchProducts` (all stores when no city). -/
def cityStoresOf (data : ArchiveData) (city : Option Str) : List Store :=
  match city with
  | some c => data.stores.filter (fun s => hasSubL (toLowerL s.city) (toLowerL c))
  | none => data.stores

/-- Keys of the city-filtered store index (`chain:store_id`). -/
def cityStoreKeys (data : ArchiveData) (city : Option Str) : List Str :=
  (cityStoresOf data city).map (fun s => joinKey s.chain s.store_id)

/-- Substring/barcode product filter shared by both search paths:
name or brand contains the normalized query, or the barcode equals it. -/
def productMatches (nq : Str) (p : Product) : Bool :=
  hasSubL (toLowerL p.name) nq || hasSubL (toLowerL p.brand) nq || p.barcode = nq

/-- Prices attached to one matching product in `searchProducts`: filter
`data.prices` by the product's chain and id and — when a city is given — by
membership of the price's store key in the city index, then look the store
object up in the full store list (`data.stores.find`). -/
def attachPrices (data : ArchiveData) (city : Option Str) (p : Product) : List AttachedPrice :=
  (data.prices.filter (fun pr =>
      pr.chain = p.chain && pr.product_id = p.product_id &&
        (match city with
         | some _ => (cityStoreKeys data city).contains (joinKey pr.chain pr.store_id)
         | none => true))).filterMap
    (fun pr =>
      (data.stores.find? (fun s => s.chain = p.chain && s.store_id = pr.store_id)).map
        (fun st =>
          ⟨p.chain, st, pr.price, pr.unit_price, pr.best_price_30,
            pr.anchor_price, pr.special_price⟩))

/-- Insertion step of the stable sort: place `x` before the first element `y`
with `le x y`, after every earlier element. -/
def jsInsert {α : Type} (le : α → α → Bool) (x : α) : List α → List α
  | [] => [x]
  | y :: ys => if le x y then x :: y :: ys else y :: jsInsert le x ys

/-- Model of the stable JS `Array.prototype.sort` under the total preorder
induced by a comparator: a stable insertion sort (ties keep their original
relative order, as ECMAScript guarantees). -/
def jsSort {α : Type} (le : α → α → Bool) : List α → List α
  | [] => []
  | x :: xs => jsInsert le x (jsSort le xs)

/-- One iteration of the product merge loop of `searchProducts`: create the
group for the product's fingerprint key if it is new, then append the
product's attached prices to that group. -/
def mergeStep (data : ArchiveData) (city : Option Str)
    (m : List (Str × ProductWithPrices)) (p : Product) : List (Str × ProductWithPrices) :=
  let k := fpKey p
  let m1 := if m.any (fun e => e.1 = k) then m else m ++ [(k, ⟨displayP p, []⟩)]
  m1.map (fun e =>
    if e.1 = k then (e.1, ⟨e.2.product, e.2.prices ++ attachPrices data city p⟩) else e)

/-- Comparator of the final sort, `(a, b) => b.prices.length - a.prices.length`
(JS sorts are stable, hence a stable merge sort with this relation). -/
def byPriceCountDesc (a b : ProductWithPrices) : Bool :=
  b.prices.length ≤ a.prices.length

/-- Embedding of `searchProducts` (`src/lib/cijene.ts`): normalize the query;
filter products by name/brand substring or exact barcode; merge matches into
groups keyed by the fingerprint string, attaching city-filtered prices; drop
groups with no prices; sort by descending price count; truncate to 50. -/
def searchProducts (data : ArchiveData) (query : Str) (city : Option Str) :
    List ProductWithPrices :=
  let nq := trimL (toLowerL query)
  if nq = [] then []
  else
    let matching := data.products.filter (productMatches nq)
    let grouped := matching.foldl (mergeStep data city) []
    (jsSort byPriceCountDesc ((grouped.map (fun e => e.2)).filter
        (fun g => !g.prices.isEmpty))).take 50

/-- JS `[...new Set(xs)]`: deduplicate keeping first occurrences. -/
def dedupFirst {α : Type} [DecidableEq α] (xs : List α) : List α :=
  xs.foldl (fun acc x => if acc.contains x then acc else acc ++ [x]) []

/-- First-occurrence list of string fingerprint keys of `ps`. -/
def firstKeys (ps : List Product) : List Str :=
  dedupFirst (ps.map fpKey)

/-- Fallback product for total lookups; never observed on reachable keys. -/
def emptyProduct : Product := ⟨[], [], [], [], [], [], [], []⟩

/-- Generic form of the two-phase merge loop shared by `searchProducts` and
`searchProductsFromDB`: `key` is the fingerprint, `dis` the display product
stored at group creation, `att` the per-product price attachment. -/
def gStep {π : Type} (key : π → Str) (dis : π → Product) (att : π → List AttachedPrice)
    (m : List (Str × ProductWithPrices)) (p : π) : List (Str × ProductWithPrices) :=
  let k := key p
  let m1 := if m.any (fun e => e.1 = k) then m else m ++ [(k, ⟨dis p, []⟩)]
  m1.map (fun e =>
    if e.1 = k then (e.1, ⟨e.2.product, e.2.prices ++ att p⟩) else e)

/-- Closed form of the generic merge fold: one group per distinct key in
first-occurrence order, holding the display product of the first member and
the concatenated attachments of every member with that key. -/
def gAcc {π : Type} (key : π → Str) (dis : π → Product) (att : π → List AttachedPrice)
    (ps : List π) : List (Str × ProductWithPrices) :=
  (dedupFirst (ps.map key)).map (fun k =>
    (k, ⟨(ps.find? (fun p => key p = k)).elim emptyProduct dis,
         ((ps.filter (fun p => key p = k)).map att).flatten⟩))

/-- Merge groups as the specification words them, but with the source's
string fingerprint key: one group per distinct key in first-occurrence order,
holding the first matching product (display-named) and the concatenation of
the attached prices of every matching product with that key. -/
def specGroupsStr (data : ArchiveData) (city : Option Str) (ps : List Product) :
    List (Str × ProductWithPrices) :=
  (firstKeys ps).map (fun k =>
    (k, ⟨(ps.find? (fun p => fpKey p = k)).elim emptyProduct displayP,
         ((ps.filter (fun p => fpKey p = k)).map (attachPrices data city)).flatten⟩))

/-- Spec-worded merge result with the string fingerprint key (the amended
reading of the merge claim). -/
def specSearchStr (data : ArchiveData) (query : Str) (city : Option Str) :
    List ProductWithPrices :=
  let nq := trimL (toLowerL query)
  if nq = [] then []
  else
    let matching := data.products.filter (productMatches nq)
    (jsSort byPriceCountDesc (((specGroupsStr data city matching).map (fun e => e.2)).filter
        (fun g => !g.prices.isEmpty))).take 50

/-- Fingerprint key as the claim words it: the barcode when non-empty,
otherwise the pair `(chain, product_id)`. -/
def fpPair (p : Product) : Str ⊕ (Str × Str) :=
  if p.barcode = [] then .inr (p.chain, p.product_id) else .inl p.barcode

/-- First-occurrence list of pair fingerprint keys of `ps`. -/
def firstPairKeys (ps : List Product) : List (Str ⊕ (Str × Str)) :=
  dedupFirst (ps.map fpPair)

/-- Price attachment as the claim words it: a price is attached exactly when
the city-filtered store index contains a store with the price's
`(chain, store_id)` pair; the attached store object is the one the source
looks up. -/
def attachPricesPair (data : ArchiveData) (city : Option Str) (p : Product) :
    List AttachedPrice :=
  (data.prices.filter (fun pr =>
      pr.chain = p.chain && pr.product_id = p.product_id &&
        (cityStoresOf data city).any
          (fun s => s.chain = pr.chain && s.store_id = pr.store_id))).filterMap
    (fun pr =>
      (data.stores.find? (fun s => s.chain = p.chain && s.store_id = pr.store_id)).map
        (fun st =>
          ⟨p.chain, st, pr.price, pr.unit_price, pr.best_price_30,
            pr.anchor_price, pr.special_price⟩))

/-- Merge groups exactly as the claim states them: grouped by the pair-valued
fingerprint key, prices attached by pair membership in the city-filtered
store index. -/
def specGroupsPair (data : ArchiveData) (city : Option Str) (ps : List Product) :
    List ((Str ⊕ (Str × Str)) × ProductWithPrices) :=
  (firstPairKeys ps).map (fun k =>
    (k, ⟨(ps.find? (fun p => fpPair p = k)).elim emptyProduct displayP,
         ((ps.filter (fun p => fpPair p = k)).map (attachPricesPair data city)).flatten⟩))

/-- Merge result exactly as the claim states it (pair fingerprint key). -/
def specSearchPair (data : ArchiveData) (query : Str) (city : Option Str) :
    List ProductWithPrices :=
  let nq := trimL (toLowerL query)
  if nq = [] then []
  else
    let matching := data.products.filter (productMatches nq)
    (jsSort byPriceCountDesc (((specGroupsPair data city matching).map (fun e => e.2)).filter
        (fun g => !g.prices.isEmpty))).take 50

/-- Row of the `stores` table (`src/db/schema.ts`). -/
structure StoreRow where
  storeId : Str
  chain : Str
  type : Str
  address : Str
  city : Str
  zipcode : Str
  date : Str
deriving DecidableEq

/-- Row of the `products` table. -/
structure ProductRow where
  productId : Str
  barcode : Str
  name : Str
  brand : Str
  category : Str
  unit : Str
  quantity : Str
  chain : Str
  date : Str
deriving DecidableEq

/-- Row of the `prices` table; the nullable real columns carry `RealVal`
because the ingest script can hand the driver `NaN`. -/
structure PriceRow where
  storeId : Str
  productId : Str
  chain : Str
  price : Rat
  unitPrice : RealVal
  bestPrice30 : RealVal
  anchorPrice : RealVal
  specialPrice : RealVal
  date : Str
deriving DecidableEq

/-- Row of the `ingestion_log` table (`date` carries a unique index;
timestamps are not modelled). -/
structure LogRow where
  date : Str
  storeCount : Nat
  productCount : Nat
  priceCount : Nat
  status : Str
  errorMessage : Option Str
deriving DecidableEq

/-- The SQLite catalog: the four tables as row lists in insertion order. -/
structure DB where
  stores : List StoreRow
  products : List ProductRow
  prices : List PriceRow
  log : List LogRow
deriving DecidableEq

/-- SQLite `col LIKE '%pat%'` with the default collation: ASCII
case-insensitive containment (`Char.toLower` is exactly the ASCII mapping). -/
def likeContains (s pat : Str) : Bool := hasSubL (toLowerL s) (toLowerL pat)

/-- Embedding of `isDateIngested`: the `select … limit 1` is non-empty
exactly when a `success` log row for `date` exists. -/
def isDateIngested (db : DB) (date : Str) : Bool :=
  db.log.any (fun r => r.date = date && r.status = ("success".data))

/-- Embedding of `getLatestIngestedDate`: the `success` rows ordered by
descending date, limit 1. -/
def getLatestIngestedDate (db : DB) : Option Str :=
  (((jsSort (fun (a b : LogRow) => strLe b.date a.date)
      (db.log.filter (fun r => r.status = ("success".data)))).take 1).head?).map
    (fun r => r.date)

/-- One step of the JS grouping fold over an insertion-ordered string-keyed
map: `if (!m.has(k)) m.set(k, []); m.get(k).push(val(x))`. -/
def gvStep {α β : Type} (key : α → Str) (val : α → β) (m : List (Str × List β))
    (x : α) : List (Str × List β) :=
  let k := key x
  let m1 := if m.any (fun e => e.1 = k) then m else m ++ [(k, [])]
  m1.map (fun e => if e.1 = k then (e.1, e.2 ++ [val x]) else e)

/-- JS grouping fold over an insertion-ordered string-keyed map. -/
def groupFoldV {α β : Type} (key : α → Str) (val : α → β) (xs : List α) :
    List (Str × List β) :=
  xs.foldl (gvStep key val) []

/-- Map lookup `m.get(k) || []` on a grouped map. -/
def mapLookup {β : Type} (m : List (Str × List β)) (k : Str) : List β :=
  match m.find? (fun e => e.1 = k) with
  | some e => e.2
  | none => []

/-- Lookup `storeMap.get(k)`: the map is built by repeated `set`, so the last row
with the key wins. -/
def storeMapGet (storeRows : List StoreRow) (k : Str) : Option StoreRow :=
  (storeRows.filter (fun s => joinKey s.chain s.storeId = k)).getLast?

/-- Store object as rebuilt from a DB store row. -/
def storeOfRow (s : StoreRow) : Store :=
  ⟨s.storeId, s.type, s.address, s.city, s.zipcode, s.chain⟩

/-- Product value stored when a DB merge group is created
(`name: product.name || "Nepoznat proizvod"`). -/
def dbDisplay (p : ProductRow) : Product :=
  ⟨p.productId, p.barcode, if p.name = [] then "Nepoznat proizvod".data else p.name,
   p.brand, p.category, p.unit, p.quantity, p.chain⟩

/-- Fingerprint key of the DB merge:
`product.barcode || chain + ":" + productId`. -/
def fpKeyDB (p : ProductRow) : Str :=
  if p.barcode = [] then joinKey p.chain p.productId else p.barcode

/-- Per-product price attachment of the DB merge: the price bucket of the
product's `chain:product_id` key, the city-membership skip, then the
store-map lookup. -/
def attachPricesDB (city : Option Str) (storeRows : List StoreRow)
    (priceMap : List (Str × List PriceRow)) (p : ProductRow) : List AttachedPrice :=
  ((mapLookup priceMap (joinKey p.chain p.productId)).filter (fun pr =>
      match city with
      | some _ =>
        (storeRows.map (fun s => joinKey s.chain s.storeId)).contains
          (joinKey pr.chain pr.storeId)
      | none => true)).filterMap
    (fun pr =>
      (storeMapGet storeRows (joinKey pr.chain pr.storeId)).map (fun st =>
        ⟨p.chain, storeOfRow st, pr.price, pr.unitPrice, pr.bestPrice30,
          pr.anchorPrice, pr.specialPrice⟩))

/-- One iteration of the DB merge loop (same two-phase map update as the zip
path). -/
def mergeStepDB (city : Option Str) (storeRows : List StoreRow)
    (priceMap : List (Str × List PriceRow)) (m : List (Str × ProductWithPrices))
    (p : ProductRow) : List (Str × ProductWithPrices) :=
  let k := fpKeyDB p
  let m1 := if m.any (fun e => e.1 = k) then m else m ++ [(k, ⟨dbDisplay p, []⟩)]
  m1.map (fun e =>
    if e.1 = k then
      (e.1, ⟨e.2.product, e.2.prices ++ attachPricesDB city storeRows priceMap p⟩)
    else e)

/-- The matching-product query of `searchProductsFromDB`: date equality, name
or brand `LIKE`, or exact barcode; `limit(500)`. -/
def dbMatching (db : DB) (date nq : Str) : List ProductRow :=
  (db.products.filter (fun p =>
    p.date = date &&
      (likeContains p.name nq || likeContains p.brand nq || p.barcode = nq))).take 500

/-- The store query of `searchProductsFromDB`: date, chain in the matching
set, and the optional city `LIKE`. -/
def dbStoreRows (db : DB) (date : Str) (matchingChains : List Str) (city : Option Str) :
    List StoreRow :=
  db.stores.filter (fun s =>
    s.date = date && matchingChains.contains s.chain &&
      (match city with
       | some c => likeContains s.city c
       | none => true))

/-- Embedding of `searchProductsFromDB` (`src/lib/db-queries.ts`). -/
def searchProductsFromDB (db : DB) (date : Str) (query : Str) (city : Option Str) :
    List ProductWithPrices :=
  let nq := trimL (toLowerL query)
  if nq = [] then []
  else
    let matchingProducts := dbMatching db date nq
    if matchingProducts.isEmpty then []
    else
      let matchingChains := dedupFirst (matchingProducts.map (fun p => p.chain))
      let storeRows := dbStoreRows db date matchingChains city
      let productIds := matchingProducts.map (fun p => p.productId)
      let priceRows :=
        db.prices.filter (fun pr =>
          pr.date = date && matchingChains.contains pr.chain &&
            productIds.contains pr.productId)
      let priceMap := groupFoldV (fun pr => joinKey pr.chain pr.productId) id priceRows
      let grouped := matchingProducts.foldl (mergeStepDB city storeRows priceMap) []
      (jsSort byPriceCountDesc ((grouped.map (fun e => e.2)).filter
          (fun g => !g.prices.isEmpty))).take 50

/-- One chain summary of the history output. -/
structure ChainSummary where
  chain : Str
  minPrice : Rat
  avgPrice : Rat
deriving DecidableEq

/-- One history output entry. -/
structure HistoryPoint where
  date : Str
  prices : List ChainSummary
deriving DecidableEq

/-- Model of `Math.min(...p)` on a non-empty list (0 on the empty list, which the code
never reaches). -/
def listMin : List Rat → Rat
  | [] => 0
  | h :: t => t.foldl min h

/-- Model of `p.reduce((a, b) => a + b, 0)`. -/
def listSum (p : List Rat) : Rat := p.foldl (fun a b => a + b) 0

/-- Model of `Math.max(...p)` on a non-empty list (0 on the empty list); used to state
the aggregation bounds. -/
def listMax : List Rat → Rat
  | [] => 0
  | h :: t => t.foldl max h

/-- Predicate of the per-date matching-products query of the history path:
exact barcode when given, else name `LIKE` the lowercased product name; exact
chain when given. -/
def histMatch (barcode productName chain : Option Str) (date : Str) (p : ProductRow) : Bool :=
  p.date = date &&
    (match barcode with
     | some b => p.barcode = b
     | none => likeContains p.name (toLowerL (productName.getD []))) &&
    (match chain with
     | some c => p.chain = c
     | none => true)

/-- The capped per-date matching-product list of the history path
(`limit(200)`). -/
def historyConsidered (db : DB) (barcode productName chain : Option Str) (date : Str) :
    List ProductRow :=
  (db.products.filter (histMatch barcode productName chain date)).take 200

/-- City store keys for one history date (only queried when a city filter is
active). -/
def histCityKeys (db : DB) (city : Str) (date : Str) : List Str :=
  (db.stores.filter (fun s => s.date = date && likeContains s.city city)).map
    (fun s => joinKey s.chain s.storeId)

/-- The price query of the history path for one date: date equality, chain
and product id drawn from the capped matching products. -/
def histPriceRows (db : DB) (barcode productName chain : Option Str) (date : Str) :
    List PriceRow :=
  let matchingProducts := historyConsidered db barcode productName chain date
  let productIds := matchingProducts.map (fun p => p.productId)
  let matchingChains := dedupFirst (matchingProducts.map (fun p => p.chain))
  db.prices.filter (fun pr =>
    pr.date = date && matchingChains.contains pr.chain &&
      productIds.contains pr.productId)

/-- The price observations that survive the optional city filter for one
history date, in row order. -/
def histPassRows (db : DB) (barcode productName city chain : Option Str) (date : Str) :
    List PriceRow :=
  (histPriceRows db barcode productName chain date).filter (fun pr =>
    match city with
    | some c => (histCityKeys db c date).contains (joinKey pr.chain pr.storeId)
    | none => true)

/-- Per-date history entry: capped matching products, the price query, the
city skip, the group-by-chain fold and the min/mean summaries; `none` when
the date contributes no entry. -/
def historyEntry (db : DB) (barcode productName city chain : Option Str) (date : Str) :
    Option HistoryPoint :=
  if (historyConsidered db barcode productName chain date).isEmpty then none
  else
    let chainPrices :=
      groupFoldV (fun pr => pr.chain) (fun pr => pr.price)
        (histPassRows db barcode productName city chain date)
    if chainPrices.isEmpty then none
    else
      some ⟨date, chainPrices.map (fun e => ⟨e.1, listMin e.2, listSum e.2 / e.2.length⟩)⟩

/-- One iteration of the per-date history loop: append the date's entry when
it contributes one. -/
def histStep (db : DB) (barcode productName city chain : Option Str)
    (acc : List HistoryPoint) (date : Str) : List HistoryPoint :=
  match historyEntry db barcode productName city chain date with
  | some e => acc ++ [e]
  | none => acc

/-- Embedding of `getPriceHistoryFromDB` (`src/lib/db-queries.ts`): the most
recent `days` success dates, one optional entry per date, sorted ascending by
date at the end. -/
def getPriceHistoryFromDB (db : DB) (barcode productName city chain : Option Str)
    (days : Nat) : List HistoryPoint :=
  let availableDates :=
    (((jsSort (fun (a b : LogRow) => strLe b.date a.date)
        (db.log.filter (fun r => r.status = ("success".data)))).take days).map
      (fun r => r.date))
  if availableDates.isEmpty then []
  else
    let historyData :=
      availableDates.foldl (histStep db barcode productName city chain) []
    jsSort (fun (a b : HistoryPoint) => strLe a.date b.date) historyData

/-- Effects the search route can perform: catalog (SQLite) reads and
upstream HTTP requests. -/
inductive Effect
  | dbRead
  | httpFetch
deriving DecidableEq

/-- Environment of the search route: the catalog, the upstream archive list
(`none` models a failed `fetchArchiveList`; dates listed most recent first),
and an oracle for the archive data the zip path assembles per date
(`searchProductsEfficient` fetches the member CSVs and then calls
`searchProducts` on the assembled `ArchiveData`). -/
structure SearchEnv where
  db : DB
  archiveDates : Option (List Str)
  remote : Str → ArchiveData

/-- JSON body of the search route: products, the date answered for, and the
`source` tag (absent on the empty-query early return). -/
structure SearchResponse where
  products : List ProductWithPrices
  date : Str
  source : Option Str

/-- Embedding of the search route `GET` handler
(`src/app/api/search/route.ts`, database-backed version): an empty trimmed
query returns immediately; `isDateIngested` picks the catalog path for the
requested date; else `getLatestIngestedDate` picks the catalog path for the
latest date; else the archive list (when available) resolves unknown dates to
its most recent entry and the zip path answers.  The effect list records
every catalog read and upstream HTTP request the handler performs. -/
def searchRoute (env : SearchEnv) (query city date : Str) :
    SearchResponse × List Effect :=
  if trimL query = [] then (⟨[], date, none⟩, [])
  else if isDateIngested env.db date then
    (⟨searchProductsFromDB env.db date query (some city), date, some ("db".data)⟩,
      [.dbRead, .dbRead])
  else
    match getLatestIngestedDate env.db with
    | some d =>
      (⟨searchProductsFromDB env.db d query (some city), d, some ("db".data)⟩,
        [.dbRead, .dbRead, .dbRead])
    | none =>
      let actualDate :=
        match env.archiveDates with
        | some dates =>
          if dates.contains date then date else dates.headD ("undefined".data)
        | none => date
      (⟨searchProducts (env.remote actualDate) query (some city), actualDate,
          some ("zip".data)⟩,
        [.dbRead, .dbRead, .httpFetch, .httpFetch])

/-- Environment of one `ingestDate` run: outcome of the archive-level steps
(HEAD probe, directory fetch), the chain list of the directory, the archive
members, and fault oracles for member fetches and insert statements (by
table, chain and batch index).  The bounded-concurrency chain batches are
modelled sequentially; the properties proved are interleaving-independent. -/
structure IngestEnv where
  headOk : Bool
  dirOk : Bool
  chains : List Str
  memberCsv : Str → Str → Option Str
  fetchErr : Str → Str → Bool
  insertErr : Str → Str → Nat → Bool

/-- Totals accumulated by an ingest run. -/
structure IngestTotals where
  stores : Nat
  products : Nat
  prices : Nat
deriving DecidableEq

/-- Store row from one `stores.csv` record (`chain` and `date` stamped from
context). -/
def toStoreRow (chain date : Str) (r : List (Str × Str)) : StoreRow :=
  ⟨objGet r ("store_id".data), chain, objGet r ("type".data),
   objGet r ("address".data), objGet r ("city".data), objGet r ("zipcode".data), date⟩

/-- Product row from one `products.csv` record. -/
def toProductRow (chain date : Str) (r : List (Str × Str)) : ProductRow :=
  ⟨objGet r ("product_id".data), objGet r ("barcode".data), objGet r ("name".data),
   objGet r ("brand".data), objGet r ("category".data), objGet r ("unit".data),
   objGet r ("quantity".data), chain, date⟩

/-- Price row from one `prices.csv` record, with the numeric coercions. -/
def toPriceRow (chain date : Str) (r : List (Str × Str)) : PriceRow :=
  ⟨objGet r ("store_id".data), objGet r ("product_id".data), chain,
   coercePrice (objGet r ("price".data)),
   coerceOptional (objGet r ("unit_price".data)),
   coerceOptional (objGet r ("best_price_30".data)),
   coerceOptional (objGet r ("anchor_price".data)),
   coerceOptional (objGet r ("special_price".data)), date⟩

/-- Structural worker for `chunks500` (the fuel is only a formal bound on the
loop; each step strictly shortens the list, so fuel equal to the length always
suffices). -/
def chunksGo {α : Type} : Nat → List α → List (List α)
  | _, [] => []
  | 0, _ :: _ => []
  | fuel + 1, x :: xs => (x :: xs).take 500 :: chunksGo fuel ((x :: xs).drop 500)

/-- Split a row list into the 500-row batches of `batchInsert`. -/
def chunks500 {α : Type} (l : List α) : List (List α) := chunksGo l.length l

/-- Insert statement on the `stores` table: append the batch. -/
def insStores (db : DB) (rows : List StoreRow) : DB :=
  { db with stores := db.stores ++ rows }

/-- Insert statement on the `products` table. -/
def insProducts (db : DB) (rows : List ProductRow) : DB :=
  { db with products := db.products ++ rows }

/-- Insert statement on the `prices` table. -/
def insPrices (db : DB) (rows : List PriceRow) : DB :=
  { db with prices := db.prices ++ rows }

/-- Model of `batchInsert(rows, 500, insert)` under the fault oracle: batches before
the first failing statement stay inserted; the failure aborts the remaining
batches and the thrown error propagates to the chain task. -/
def insertBatches {α : Type} (err : Nat → Bool) (ins : DB → List α → DB) :
    DB → Nat → List (List α) → DB × Bool
  | db, _, [] => (db, false)
  | db, i, b :: bs =>
    if err i then (db, true)
    else insertBatches err ins (ins db b) (i + 1) bs

/-- Process one member file inside a chain task: look the member up, fetch it
(which may throw), decode the CSV, map the rows, batch-insert.  Returns the
updated database, the row count added to the totals, and whether the step
threw. -/
def ingestFile {α : Type} (env : IngestEnv) (chain file : Str)
    (mk : List (Str × Str) → α) (ins : DB → List α → DB) (tbl : Str) (db : DB) :
    DB × Nat × Bool :=
  match env.memberCsv chain file with
  | none => (db, 0, false)
  | some text =>
    if env.fetchErr chain file then (db, 0, true)
    else
      let rows := (parseCSVText text).map mk
      if rows.isEmpty then (db, 0, false)
      else
        let r := insertBatches (env.insertErr tbl chain) ins db 0 (chunks500 rows)
        if r.2 then (r.1, 0, true) else (r.1, rows.length, false)

/-- One chain task of the ingest loop: stores, then products, then prices;
the first thrown error skips the rest of the task and is recorded as a
swallowed warning (`console.warn`), never propagated. -/
def processChain (env : IngestEnv) (date : Str)
    (st : DB × IngestTotals × List Str) (chain : Str) : DB × IngestTotals × List Str :=
  let db := st.1
  let tot := st.2.1
  let warns := st.2.2
  let s := ingestFile env chain ("stores.csv".data) (toStoreRow chain date) insStores
    ("stores".data) db
  if s.2.2 then (s.1, tot, warns ++ [chain])
  else
    let tot1 : IngestTotals := ⟨tot.stores + s.2.1, tot.products, tot.prices⟩
    let p := ingestFile env chain ("products.csv".data) (toProductRow chain date)
      insProducts ("products".data) s.1
    if p.2.2 then (p.1, tot1, warns ++ [chain])
    else
      let tot2 : IngestTotals := ⟨tot1.stores, tot1.products + p.2.1, tot1.prices⟩
      let q := ingestFile env chain ("prices.csv".data) (toPriceRow chain date)
        insPrices ("prices".data) p.1
      if q.2.2 then (q.1, tot2, warns ++ [chain])
      else (q.1, ⟨tot2.stores, tot2.products, tot2.prices + q.2.1⟩, warns)

/-- The success-path log upsert: `onConflictDoUpdate` on the unique `date`
replaces counts, status and message of an existing row, else inserts. -/
def logSuccess (db : DB) (date : Str) (tot : IngestTotals) : DB :=
  if db.log.any (fun r => r.date = date) then
    { db with
      log := db.log.map (fun r =>
        if r.date = date then
          ⟨date, tot.stores, tot.products, tot.prices, "success".data, none⟩
        else r) }
  else
    { db with
      log := db.log ++ [⟨date, tot.stores, tot.products, tot.prices, "success".data, none⟩] }

/-- The error-path log write: on conflict only `status` and `errorMessage`
are updated (stored counts are kept); a fresh row has zero counts. -/
def logError (db : DB) (date : Str) (msg : Str) : DB :=
  if db.log.any (fun r => r.date = date) then
    { db with
      log := db.log.map (fun r =>
        if r.date = date then
          ⟨r.date, r.storeCount, r.productCount, r.priceCount, "error".data, some msg⟩
        else r) }
  else
    { db with log := db.log ++ [⟨date, 0, 0, 0, "error".data, some msg⟩] }

/-- Result of one `ingestDate` run: the final database, whether an error was
rethrown to the caller, and the chains whose failures were swallowed. -/
structure IngestResult where
  db : DB
  threw : Bool
  warnings : List Str
deriving DecidableEq

/-- Short-circuit check of `ingestDate`: without `--force`, an existing
`success` log row for the date makes the run a no-op. -/
def alreadyIngested (db : DB) (date : Str) : Bool :=
  match db.log.find? (fun r => r.date = date) with
  | some r => r.status = ("success".data)
  | none => false

/-- Status of the log row for a date. -/
def logStatus (db : DB) (date : Str) : Option Str :=
  (db.log.find? (fun r => r.date = date)).map (fun r => r.status)

/-- Embedding of `ingestDate` (`src/db/ingest.ts`): the no-op short circuit;
the archive-level steps (HEAD probe, central-directory fetch) whose failure
writes an `error` log row and rethrows; the deletion of existing rows for the
date — performed only under `force`; the per-chain load with swallowed chain
failures; the final `success` log write with the accumulated totals. -/
def ingestDate (env : IngestEnv) (date : Str) (force : Bool) (db : DB) : IngestResult :=
  if !force && alreadyIngested db date then ⟨db, false, []⟩
  else if !env.headOk then
    ⟨logError db date ("Archive not found".data), true, []⟩
  else if !env.dirOk then
    ⟨logError db date ("Could not find ZIP End of Central Directory".data), true, []⟩
  else
    let db1 :=
      if force then
        { db with
          stores := db.stores.filter (fun r => !(r.date = date)),
          products := db.products.filter (fun r => !(r.date = date)),
          prices := db.prices.filter (fun r => !(r.date = date)) }
      else db
    let st := env.chains.foldl (processChain env date) (db1, ⟨0, 0, 0⟩, [])
    ⟨logSuccess st.1 date st.2.1, false, st.2.2⟩

/-- DB merge groups as the specification words them (string fingerprint key):
the spec-side counterpart of the `searchProductsFromDB` merge loop. -/
def specGroupsStrDB (city : Option Str) (storeRows : List StoreRow)
    (priceMap : List (Str × List PriceRow)) (ps : List ProductRow) :
    List (Str × ProductWithPrices) :=
  (dedupFirst (ps.map fpKeyDB)).map (fun k =>
    (k, ⟨(ps.find? (fun p => fpKeyDB p = k)).elim emptyProduct dbDisplay,
         ((ps.filter (fun p => fpKeyDB p = k)).map
             (attachPricesDB city storeRows priceMap)).flatten⟩))

/-- Spec-worded result of the DB search path (string fingerprint key). -/
def specSearchStrDB (db : DB) (date : Str) (query : Str) (city : Option Str) :
    List ProductWithPrices :=
  let nq := trimL (toLowerL query)
  if nq = [] then []
  else
    let matchingProducts := dbMatching db date nq
    if matchingProducts.isEmpty then []
    else
      let matchingChains := dedupFirst (matchingProducts.map (fun p => p.chain))
      let storeRows := dbStoreRows db date matchingChains city
      let productIds := matchingProducts.map (fun p => p.productId)
      let priceRows :=
        db.prices.filter (fun pr =>
          pr.date = date && matchingChains.contains pr.chain &&
            productIds.contains pr.productId)
      let priceMap := groupFoldV (fun pr => joinKey pr.chain pr.productId) id priceRows
      (jsSort byPriceCountDesc
        (((specGroupsStrDB city storeRows priceMap matchingProducts).map (fun e => e.2)).filter
          (fun g => !g.prices.isEmpty))).take 50

/-- Relation stating that `d2` extends `d1` by appending only rows stamped
with `date` to the three catalog tables (the log is unconstrained).  This is
the shape every ingest step preserves. -/
def TablesAppend (date : Str) (d1 d2 : DB) : Prop :=
  (∃ ns, d2.stores = d1.stores ++ ns ∧ ∀ x ∈ ns, x.date = date) ∧
  (∃ np, d2.products = d1.products ++ np ∧ ∀ x ∈ np, x.date = date) ∧
  (∃ nq, d2.prices = d1.prices ++ nq ∧ ∀ x ∈ nq, x.date = date)

/-- Copy of the database in which every price row not referenced by the
capped per-date matching-product set of the history path (its chains and
product ids) is deleted.  Invariance of the history output under this pruning
states exactly that prices of matching products beyond the 200-row cap are
excluded from the aggregation. -/
def histPrunedPrices (db : DB) (barcode productName chain : Option Str) : DB :=
  { db with
    prices := db.prices.filter (fun pr =>
      (dedupFirst ((historyConsidered db barcode productName chain pr.date).map
          (fun p => p.chain))).contains pr.chain &&
        ((historyConsidered db barcode productName chain pr.date).map
          (fun p => p.productId)).contains pr.productId) }

end KolkoKosta

namespace KolkoKosta

def cxProduct1 : Product := ⟨"b:c".data, [], "x".data, [], [], [], [], "a".data⟩

def cxProduct2 : Product := ⟨"c".data, [], "x".data, [], [], [], [], "a:b".data⟩

def cxStore1 : Store := ⟨"s".data, [], [], [], [], "a".data⟩

def cxStore2 : Store := ⟨"s".data, [], [], [], [], "a:b".data⟩

def cxPrice1 : Price := ⟨"s".data, "b:c".data, 1, .nullV, .nullV, .nullV, .nullV, "a".data⟩

def cxPrice2 : Price := ⟨"s".data, "c".data, 2, .nullV, .nullV, .nullV, .nullV, "a:b".data⟩

def cxData : ArchiveData :=
  ⟨[cxStore1, cxStore2], [cxProduct1, cxProduct2], [cxPrice1, cxPrice2], "2025-06-01".data⟩

def dbEmpty : DB := ⟨[], [], [], []⟩

def c2Env : IngestEnv :=
  { headOk := true, dirOk := true, chains := ["a".data],
    memberCsv := fun chain file =>
      if chain = ("a".data) && file = ("stores.csv".data) then
        some ("store_id,city\ns1,Zagreb".data)
      else if chain = ("a".data) && file = ("products.csv".data) then
        some ("product_id,name\np1,Mlijeko".data)
      else none,
    fetchErr := fun _ _ => false,
    insertErr := fun tbl _ _ => tbl = ("products".data) }

end KolkoKosta

namespace KolkoKosta

/-- Concrete search environment used to witness the route theorems. -/
def dbOneDate : DB :=
  ⟨[], [], [], [⟨"2025-06-01".data, 0, 0, 0, "success".data, none⟩]⟩

/-- Empty archive data used by witness environments. -/
def noArchive : ArchiveData := ⟨[], [], [], []⟩

/-- Witness environment whose catalog contains one ingested date. -/
def envIngested : SearchEnv := ⟨dbOneDate, none, fun _ => noArchive⟩

/-- Witness environment with an empty catalog. -/
def envEmpty : SearchEnv := ⟨dbEmpty, none, fun _ => noArchive⟩

end KolkoKosta

namespace KolkoKosta

theorem trimL_eq_nil_of_all_white (s : Str) (h : ∀ c ∈ s, c.isWhitespace) :
    trimL s = [] := by
  have h1 : s.dropWhile Char.isWhitespace = [] :=
    List.dropWhile_eq_nil_iff.mpr (fun c hc => h c hc)
  simp [trimL, h1]

theorem zipTailWindow_length (archive : List Nat) :
    (zipTailWindow archive).length = min archive.length 65558 := by
  simp only [zipTailWindow, fetchRangeL, List.length_take, List.length_drop]
  omega

/-- Claim C1 (corrected): the trailing window fetched by `getZipEntries`
before the backward EOCD scan has exactly `min(fileSize, 65558)` bytes — the
source computes `Math.min(65536 + 22, fileSize)`, one more than the
`min(fileSize, 65557)` stated by the specification. -/
theorem c1_tail_window_size (archive : List Nat) :
    (zipTailWindow archive).length = min archive.length 65558 :=
  zipTailWindow_length archive

/-- Claim C1 counterexample: on a 65558-byte archive the fetched window has
65558 bytes, not `min(fileSize, 65557) = 65557` as the claim states. -/
theorem c1_tail_window_size_counterexample :
    (zipTailWindow (List.replicate 65558 0)).length ≠
      min (List.replicate 65558 (0 : Nat)).length 65557 := by
  have h := zipTailWindow_length (List.replicate 65558 0)
  simp only [List.length_replicate] at h ⊢
  omega

/-- Claim C5 (corrected): `price` coerces to 0 when `parseFloat` fails; an
optional real coerces to `null` exactly when its field is empty; a non-empty
unparseable optional field yields `NaN`, not `null`. -/
theorem c5_numeric_coercion :
    (∀ s : Str, parseFloatQ s = none → coercePrice s = 0) ∧
    (∀ s : Str, coerceOptional s = RealVal.nullV ↔ s = []) ∧
    (∀ s : Str, s ≠ [] → parseFloatQ s = none → coerceOptional s = RealVal.nanV) := by
  refine ⟨fun s h => by simp [coercePrice, h], fun s => ?_,
    fun s hne h => by simp [coerceOptional, hne, h]⟩
  constructor
  · intro h
    by_contra hne
    rw [coerceOptional, if_neg hne] at h
    cases heq : parseFloatQ s <;> simp [heq] at h
  · intro h
    simp [coerceOptional, h]

/-- Claim C5 counterexample: the field `"abc"` is non-empty and unparseable,
yet its optional-real coercion is `NaN`, not the absent value `null` the
claim requires. -/
theorem c5_numeric_coercion_counterexample :
    parseFloatQ ("abc".data) = none ∧ coerceOptional ("abc".data) ≠ RealVal.nullV := by
  decide

/-- Witness for the corrected coercion claim at the concrete field `"xy"`. -/
theorem c5_numeric_coercion_witness :
    (parseFloatQ ("xy".data) = none ∧ ("xy".data : Str) ≠ []) ∧
    coercePrice ("xy".data) = 0 ∧ coerceOptional ("xy".data) = RealVal.nanV :=
  ⟨⟨by decide, by decide⟩, c5_numeric_coercion.1 ("xy".data) (by decide),
    c5_numeric_coercion.2.2 ("xy".data) (by decide) (by decide)⟩

/-- Claim C9 (confirmed): input that splits into fewer than two lines on the
newline character — in particular a header-only CSV without a trailing
newline — decodes to the empty record list. -/
theorem c9_short_csv (text : Str) (h : (splitCh '\n' text).length < 2) :
    parseCSVText text = [] := by
  rw [parseCSVText]
  simp only [if_pos h]

/-- Witness for the short-CSV claim at the header-only input `"a,b"`. -/
theorem c9_short_csv_witness :
    (splitCh '\n' ("a,b".data)).length < 2 ∧ parseCSVText ("a,b".data) = [] :=
  ⟨by decide, c9_short_csv ("a,b".data) (by decide)⟩

/-- Claim C8 (confirmed): a query that is empty or all whitespace makes the
search route answer an empty product list immediately, performing no catalog
read and no upstream HTTP request. -/
theorem c8_blank_query (env : SearchEnv) (query city date : Str)
    (h : ∀ c ∈ query, c.isWhitespace) :
    searchRoute env query city date = (⟨[], date, none⟩, []) := by
  have ht : trimL query = [] := trimL_eq_nil_of_all_white query h
  simp [searchRoute, ht]

/-- Witness for the blank-query claim at the two-space query. -/
theorem c8_blank_query_witness :
    (∀ c ∈ ("  ".data : Str), c.isWhitespace) ∧
    searchRoute envEmpty ("  ".data) ("Zagreb".data) ("2025-06-01".data) =
      (⟨[], "2025-06-01".data, none⟩, []) :=
  ⟨by decide, c8_blank_query envEmpty ("  ".data) ("Zagreb".data) ("2025-06-01".data)
    (by decide)⟩

end KolkoKosta

namespace KolkoKosta

theorem strLe_refl (a : Str) : strLe a a = true := by simp [strLe]

/-- Claim C3 (confirmed): for a non-blank query the search route resolves in
order — ingested requested date answers from the catalog at that date with
source `db`; else the latest ingested date answers from the catalog with
source `db`; else the zip path answers, resolving the date through the
archive list (unknown dates map to the head of the descending list, which the
sortedness hypothesis shows is the most recent upstream date). -/
theorem c3_route_resolution (env : SearchEnv) (q city date : Str) (hq : trimL q ≠ []) :
    (isDateIngested env.db date = true →
      searchRoute env q city date =
        (⟨searchProductsFromDB env.db date q (some city), date, some ("db".data)⟩,
          [.dbRead, .dbRead])) ∧
    (∀ d, isDateIngested env.db date = false → getLatestIngestedDate env.db = some d →
      searchRoute env q city date =
        (⟨searchProductsFromDB env.db d q (some city), d, some ("db".data)⟩,
          [.dbRead, .dbRead, .dbRead])) ∧
    (∀ dates, isDateIngested env.db date = false → getLatestIngestedDate env.db = none →
      env.archiveDates = some dates → dates ≠ [] →
      (searchRoute env q city date =
        (⟨searchProducts
            (env.remote (if dates.contains date then date else dates.headD ("undefined".data)))
            q (some city),
          if dates.contains date then date else dates.headD ("undefined".data),
          some ("zip".data)⟩,
          [.dbRead, .dbRead, .httpFetch, .httpFetch])) ∧
      (dates.Pairwise (fun a b => strLe b a = true) → dates.contains date = false →
        ∀ d' ∈ dates,
          strLe d' (if dates.contains date then date else dates.headD ("undefined".data)) =
            true)) := by
  refine ⟨?_, ?_, ?_⟩
  · intro h
    simp [searchRoute, hq, h]
  · intro d h hl
    simp [searchRoute, hq, h, hl]
  · intro dates h hl harch hne
    constructor
    · simp [searchRoute, hq, h, hl, harch]
    · intro hsort hcont d' hd'
      rw [hcont]
      simp only [Bool.false_eq_true, if_false]
      cases dates with
      | nil => exact absurd rfl hne
      | cons d0 rest =>
        simp only [List.headD_cons]
        rcases List.mem_cons.mp hd' with h0 | hrest
        · exact h0 ▸ strLe_refl d0
        · exact (List.pairwise_cons.mp hsort).1 d' hrest

/-- Witness for the resolution-order claim: a catalog holding the requested
date answers from the catalog with source `db`. -/
theorem c3_route_resolution_witness :
    (trimL ("x".data) ≠ [] ∧ isDateIngested envIngested.db ("2025-06-01".data) = true) ∧
    searchRoute envIngested ("x".data) ("Zagreb".data) ("2025-06-01".data) =
      (⟨searchProductsFromDB envIngested.db ("2025-06-01".data) ("x".data)
          (some ("Zagreb".data)),
        "2025-06-01".data, some ("db".data)⟩, [.dbRead, .dbRead]) :=
  ⟨⟨by decide, by decide⟩,
   (c3_route_resolution envIngested ("x".data) ("Zagreb".data) ("2025-06-01".data)
      (by decide)).1 (by decide)⟩

end KolkoKosta

namespace KolkoKosta

theorem foldl_skip_blank (g : Str → List (Str × Str)) :
    ∀ (L : List Str) (acc : List (List (Str × Str))),
      L.foldl
        (fun results l =>
          let line := trimL l
          if line = [] then results else results ++ [g line]) acc =
      acc ++ (L.filter (fun l => !(trimL l == []))).map (fun l => g (trimL l)) := by
  intro L
  induction L with
  | nil => intro acc; simp
  | cons l L ih =>
    intro acc
    by_cases h : trimL l = []
    · simp only [List.foldl_cons, List.filter_cons]
      rw [ih]
      simp [h]
    · simp only [List.foldl_cons, List.filter_cons]
      rw [ih]
      have hb : (trimL l == []) = false := beq_eq_false_iff_ne.mpr h
      simp [h, hb]

theorem find?_map_upd (k v : Str) (r : List (Str × Str))
    (h : r.any (fun e => e.1 = k) = true) :
    (r.map (fun e => if e.1 = k then (k, v) else e)).find? (fun e => e.1 = k) =
      some (k, v) := by
  induction r with
  | nil => simp at h
  | cons e t ih =>
    by_cases he : e.1 = k
    · simp [List.find?_cons, he]
    · simp only [List.any_cons, Bool.or_eq_true, decide_eq_true_eq] at h
      rcases h with h | h
      · exact absurd h he
      · simpa [List.find?_cons, if_neg he, he] using ih h

end KolkoKosta

namespace KolkoKosta

theorem objGet_objSet_same (r : List (Str × Str)) (k v : Str) :
    objGet (objSet r k v) k = v := by
  rw [objSet]
  by_cases h : r.any (fun e => e.1 = k) = true
  · rw [if_pos h, objGet, find?_map_upd k v r h]
  · rw [if_neg h, objGet, List.find?_append]
    have hnone : r.find? (fun e => e.1 = k) = none := by
      rw [List.find?_eq_none]
      intro x hx hpx
      exact h (List.any_eq_true.mpr ⟨x, hx, hpx⟩)
    simp [hnone]

theorem objGet_objSet_other (r : List (Str × Str)) (k k' v : Str) (hne : k' ≠ k) :
    objGet (objSet r k v) k' = objGet r k' := by
  rw [objSet]
  by_cases h : r.any (fun e => e.1 = k) = true
  · rw [if_pos h]
    unfold objGet
    congr 1
    induction r with
    | nil => simp
    | cons e t ih =>
      by_cases he : e.1 = k
      · have h1 : (decide (e.1 = k')) = false := by simp [he, Ne.symm hne]
        have h2 : (decide (((k : Str), v).1 = k')) = false := by simp [Ne.symm hne]
        simp only [List.map_cons, if_pos he, List.find?_cons, h1, h2]
        by_cases ht : t.any (fun e => e.1 = k) = true
        · exact ih ht
        · have hmap : t.map (fun e => if e.1 = k then (k, v) else e) = t.map id :=
            List.map_congr_left (fun a ha => by
              have hak : ¬ a.1 = k := fun hak =>
                ht (List.any_eq_true.mpr ⟨a, ha, by simp [hak]⟩)
              simp [hak])
          rw [hmap, List.map_id]
      · simp only [List.map_cons, if_neg he, List.find?_cons]
        by_cases hk' : e.1 = k'
        · simp [hk']
        · have h1 : (decide (e.1 = k')) = false := by simp [hk']
          simp only [h1]
          by_cases ht : t.any (fun e => e.1 = k) = true
          · exact ih ht
          · have hmap : t.map (fun e => if e.1 = k then (k, v) else e) = t.map id :=
              List.map_congr_left (fun a ha => by
                have hak : ¬ a.1 = k := fun hak =>
                  ht (List.any_eq_true.mpr ⟨a, ha, by simp [hak]⟩)
                simp [hak])
            rw [hmap, List.map_id]
  · rw [if_neg h]
    unfold objGet
    rw [List.find?_append]
    have h2 : ([((k : Str), v)].find? (fun e => e.1 = k')) = none := by
      simp [Ne.symm hne]
    rw [h2]
    cases r.find? (fun e => e.1 = k') <;> simp

end KolkoKosta

namespace KolkoKosta

theorem objGet_fold_nodup (g : Nat × Str → Str) (l : List (Nat × Str)) :
    ∀ e0 : Nat × Str, (l.map (fun e => trimL e.2)).Nodup → e0 ∈ l →
      objGet (l.foldl (fun row e => objSet row (trimL e.2) (g e)) []) (trimL e0.2) =
        g e0 := by
  induction l using List.reverseRecOn with
  | nil => intro e0 _ h; simp at h
  | append_singleton l e ih =>
    intro e0 hnd hmem
    rw [List.foldl_append, List.foldl_cons, List.foldl_nil]
    have hnd' : (l.map (fun e => trimL e.2)).Nodup ∧
        trimL e.2 ∉ l.map (fun e => trimL e.2) := by
      rw [List.map_append] at hnd
      rw [List.nodup_append] at hnd
      exact ⟨hnd.1, fun hmem' => hnd.2.2 hmem' (by simp)⟩
    rcases List.mem_append.mp hmem with h0 | h0
    · have hkey : trimL e.2 ≠ trimL e0.2 := by
        intro heq
        exact hnd'.2 (heq ▸ List.mem_map.mpr ⟨e0, h0, rfl⟩)
      rw [objGet_objSet_other _ _ _ _ (Ne.symm hkey)]
      exact ih e0 hnd'.1 h0
    · have he : e0 = e := by simpa using h0
      subst he
      exact objGet_objSet_same _ _ _

theorem mkRow_take (headers values : List Str) :
    mkRow headers values = mkRow headers (values.take headers.length) := by
  rw [mkRow, mkRow]
  have : ∀ (l : List (Nat × Str)), (∀ e ∈ l, e.1 < headers.length) →
      ∀ acc : List (Str × Str),
        l.foldl (fun row e => objSet row (trimL e.2) (trimL (values.getD e.1 []))) acc =
        l.foldl (fun row e =>
          objSet row (trimL e.2) (trimL ((values.take headers.length).getD e.1 []))) acc := by
    intro l
    induction l with
    | nil => intro _ _; rfl
    | cons e t ih =>
      intro hb acc
      have he : e.1 < headers.length := hb e (List.mem_cons_self e t)
      have hgd : (values.take headers.length).getD e.1 [] = values.getD e.1 [] := by
        rw [List.getD_eq_getElem?_getD, List.getD_eq_getElem?_getD, List.getElem?_take,
          if_pos he]
      simp only [List.foldl_cons, hgd]
      exact ih (fun x hx => hb x (List.mem_cons_of_mem e hx)) _
  rw [this headers.enum (fun e he => (List.mem_enum he).1) []]

theorem objGet_mkRow_missing (headers values : List Str) (i : Nat)
    (hnd : (headers.map trimL).Nodup) (hi : i < headers.length)
    (hv : values.length ≤ i) :
    objGet (mkRow headers values) (trimL (headers.getD i [])) = [] := by
  have hie : i < headers.enum.length := by rw [List.enum_length]; exact hi
  have hmem : (i, headers.getD i []) ∈ headers.enum := by
    have := List.getElem_enum headers i hie
    have hgd : headers.getD i [] = headers[i] := List.getD_eq_getElem headers [] hi
    rw [hgd]
    exact this ▸ List.getElem_mem hie
  have hnd' : (headers.enum.map (fun e => trimL e.2)).Nodup := by
    have : headers.enum.map (fun e => trimL e.2) = headers.map trimL := by
      rw [show (fun (e : Nat × Str) => trimL e.2) = trimL ∘ Prod.snd from rfl,
        ← List.map_map, List.enum_map_snd]
    rw [this]
    exact hnd
  have hfold := objGet_fold_nodup (fun e => trimL (values.getD e.1 [])) headers.enum
    (i, headers.getD i []) hnd' hmem
  rw [mkRow, hfold]
  show trimL (values.getD i []) = []
  rw [List.getD_eq_default values [] hv]
  rfl

/-- Claim C7 (confirmed): the decoder skips blank data lines (the surviving
records are exactly the non-blank lines after the header, in order); a header
column with no corresponding field maps to the empty string; field values
beyond the header length are ignored. -/
theorem c7_csv_decoder :
    (∀ text : Str, 2 ≤ (splitCh '\n' text).length →
      parseCSVText text =
        (((splitCh '\n' text).drop 1).filter (fun l => !(trimL l == []))).map
          (fun l =>
            mkRow (splitCh ',' (trimL ((splitCh '\n' text).headD [])))
              (parseLineVals (trimL l)))) ∧
    (∀ (headers values : List Str) (i : Nat), (headers.map trimL).Nodup →
      i < headers.length → values.length ≤ i →
      objGet (mkRow headers values) (trimL (headers.getD i [])) = []) ∧
    (∀ headers values : List Str,
      mkRow headers values = mkRow headers (values.take headers.length)) := by
  refine ⟨?_, objGet_mkRow_missing, mkRow_take⟩
  intro text h
  simp only [parseCSVText]
  rw [if_neg (by omega : ¬ (splitCh '\n' text).length < 2)]
  rw [foldl_skip_blank
    (fun line =>
      mkRow (splitCh ',' (trimL ((splitCh '\n' text).headD []))) (parseLineVals line))
    ((splitCh '\n' text).drop 1) []]
  rw [List.nil_append]

/-- Witness for the CSV decoder claim: the second header of `"a,b"` has no
field in the one-field line, and looks up as the empty string. -/
theorem c7_csv_decoder_witness :
    ((([("a".data), ("b".data)] : List Str).map trimL).Nodup ∧
      1 < ([("a".data), ("b".data)] : List Str).length ∧
      ([("1".data)] : List Str).length ≤ 1) ∧
    objGet (mkRow [("a".data), ("b".data)] [("1".data)])
      (trimL (([("a".data), ("b".data)] : List Str).getD 1 [])) = [] :=
  ⟨⟨by decide, by decide, by decide⟩,
   c7_csv_decoder.2.1 [("a".data), ("b".data)] [("1".data)] 1 (by decide) (by decide)
     (by decide)⟩

end KolkoKosta

namespace KolkoKosta

theorem contains_iff_mem {α : Type} [DecidableEq α] (l : List α) (a : α) :
    l.contains a = true ↔ a ∈ l :=
  ⟨List.mem_of_elem_eq_true, List.elem_eq_true_of_mem⟩

theorem mem_dedupFirst_aux {α : Type} [DecidableEq α] :
    ∀ (xs acc : List α) (y : α),
      (y ∈ xs.foldl (fun acc x => if acc.contains x then acc else acc ++ [x]) acc) ↔
        (y ∈ acc ∨ y ∈ xs) := by
  intro xs
  induction xs with
  | nil => intro acc y; simp
  | cons x t ih =>
    intro acc y
    simp only [List.foldl_cons]
    by_cases h : acc.contains x = true
    · rw [if_pos h, ih]
      have hx : x ∈ acc := (contains_iff_mem acc x).mp h
      constructor
      · rintro (h1 | h1)
        · exact Or.inl h1
        · exact Or.inr (List.mem_cons_of_mem x h1)
      · rintro (h1 | h1)
        · exact Or.inl h1
        · rcases List.mem_cons.mp h1 with h2 | h2
          · exact Or.inl (h2 ▸ hx)
          · exact Or.inr h2
    · rw [if_neg h, ih]
      simp only [List.mem_append, List.mem_singleton, List.mem_cons]
      tauto

theorem mem_dedupFirst {α : Type} [DecidableEq α] (xs : List α) (y : α) :
    y ∈ dedupFirst xs ↔ y ∈ xs := by
  rw [dedupFirst, mem_dedupFirst_aux]
  simp

theorem nodup_dedupFirst_aux {α : Type} [DecidableEq α] :
    ∀ (xs acc : List α), acc.Nodup →
      (xs.foldl (fun acc x => if acc.contains x then acc else acc ++ [x]) acc).Nodup := by
  intro xs
  induction xs with
  | nil => intro acc h; simpa using h
  | cons x t ih =>
    intro acc h
    simp only [List.foldl_cons]
    by_cases hc : acc.contains x = true
    · rw [if_pos hc]; exact ih acc h
    · rw [if_neg hc]
      refine ih _ ?_
      rw [List.nodup_append]
      refine ⟨h, List.nodup_singleton x, ?_⟩
      intro a ha hax
      rw [List.mem_singleton] at hax
      exact hc ((contains_iff_mem acc x).mpr (hax ▸ ha))

theorem nodup_dedupFirst {α : Type} [DecidableEq α] (xs : List α) :
    (dedupFirst xs).Nodup :=
  nodup_dedupFirst_aux xs [] List.nodup_nil

theorem dedupFirst_append_singleton {α : Type} [DecidableEq α] (xs : List α) (x : α) :
    dedupFirst (xs ++ [x]) =
      if x ∈ dedupFirst xs then dedupFirst xs else dedupFirst xs ++ [x] := by
  rw [dedupFirst, List.foldl_append]
  show (if (dedupFirst xs).contains x then dedupFirst xs else dedupFirst xs ++ [x]) = _
  by_cases h : x ∈ dedupFirst xs
  · rw [if_pos ((contains_iff_mem _ x).mpr h), if_pos h]
  · rw [if_neg (fun hc => h ((contains_iff_mem _ x).mp hc)), if_neg h]

end KolkoKosta

namespace KolkoKosta

theorem gAcc_any_iff {π : Type} (key : π → Str) (dis : π → Product)
    (att : π → List AttachedPrice) (done : List π) (k : Str) :
    ((gAcc key dis att done).any (fun e => e.1 = k) = true) ↔
      k ∈ dedupFirst (done.map key) := by
  rw [gAcc, List.any_eq_true]
  constructor
  · rintro ⟨e, he, hk⟩
    rw [List.mem_map] at he
    rcases he with ⟨k', hk', rfl⟩
    simp only [decide_eq_true_eq] at hk
    exact hk ▸ hk'
  · intro hk
    exact ⟨_, List.mem_map.mpr ⟨k, hk, rfl⟩, by simp⟩

theorem find?_key_append_of_mem {π : Type} (key : π → Str) (done : List π) (p : π)
    (k : Str) (hmem : k ∈ done.map key) :
    (done ++ [p]).find? (fun q => key q = k) = done.find? (fun q => key q = k) := by
  rcases List.mem_map.mp hmem with ⟨q, hq, hkq⟩
  have hsome : (done.find? (fun q => key q = k)).isSome = true :=
    List.find?_isSome.mpr ⟨q, hq, by simp [hkq]⟩
  rcases Option.isSome_iff_exists.mp hsome with ⟨a, ha⟩
  rw [List.find?_append, ha, Option.or_some]

theorem find?_key_append_of_ne {π : Type} (key : π → Str) (done : List π) (p : π)
    (k : Str) (hne : ¬ key p = k) :
    (done ++ [p]).find? (fun q => key q = k) = done.find? (fun q => key q = k) := by
  rw [List.find?_append]
  have : ([p].find? (fun q => key q = k)) = none := by simp [hne]
  rw [this, Option.or_none]

theorem gStep_gAcc {π : Type} (key : π → Str) (dis : π → Product)
    (att : π → List AttachedPrice) (done : List π) (p : π) :
    gStep key dis att (gAcc key dis att done) p = gAcc key dis att (done ++ [p]) := by
  by_cases hmem : key p ∈ dedupFirst (done.map key)
  · have hany : (gAcc key dis att done).any (fun e => e.1 = key p) = true :=
      (gAcc_any_iff key dis att done (key p)).mpr hmem
    simp only [gStep]
    rw [if_pos hany]
    conv_rhs => rw [gAcc]
    rw [List.map_append, List.map_singleton, dedupFirst_append_singleton, if_pos hmem]
    conv_lhs => rw [gAcc, List.map_map]
    apply List.map_congr_left
    intro k' hk'
    have hmem' : key p ∈ done.map key := (mem_dedupFirst _ _).mp hmem
    by_cases hkk : k' = key p
    · subst hkk
      simp only [Function.comp_apply]
      rw [find?_key_append_of_mem key done p (key p) hmem', List.filter_append,
        List.filter_singleton]
      simp
    · have hne : ¬ key p = k' := fun h => hkk h.symm
      simp only [Function.comp_apply]
      rw [find?_key_append_of_ne key done p k' hne, List.filter_append,
        List.filter_singleton]
      simp [hne, hkk]
  · have hany : ¬ (gAcc key dis att done).any (fun e => e.1 = key p) = true :=
      fun h => hmem ((gAcc_any_iff key dis att done (key p)).mp h)
    simp only [gStep]
    rw [if_neg hany]
    rw [List.map_append, List.map_singleton]
    conv_rhs => rw [gAcc]
    rw [List.map_append, List.map_singleton, dedupFirst_append_singleton, if_neg hmem,
      List.map_append, List.map_singleton]
    have hnotmap : ¬ key p ∈ done.map key := fun h => hmem ((mem_dedupFirst _ _).mpr h)
    congr 1
    · conv_lhs => rw [gAcc, List.map_map]
      apply List.map_congr_left
      intro k' hk'
      have hkk : ¬ key p = k' := by
        intro h
        exact hmem (h ▸ hk')
      have hkk' : ¬ k' = key p := fun h => hkk h.symm
      simp only [Function.comp_apply]
      rw [find?_key_append_of_ne key done p k' hkk, List.filter_append,
        List.filter_singleton]
      simp [hkk, hkk']
    · have hfind : done.find? (fun q => key q = key p) = none := by
        rw [List.find?_eq_none]
        intro q hq hkey
        simp only [decide_eq_true_eq] at hkey
        exact hnotmap (List.mem_map.mpr ⟨q, hq, hkey⟩)
      have hfilter : done.filter (fun q => key q = key p) = [] := by
        rw [List.filter_eq_nil_iff]
        intro q hq hkey
        simp only [decide_eq_true_eq] at hkey
        exact hnotmap (List.mem_map.mpr ⟨q, hq, hkey⟩)
      simp only [List.map_singleton]
      rw [List.find?_append, hfind, List.filter_append, hfilter, List.filter_singleton]
      simp

theorem gFold_gAcc {π : Type} (key : π → Str) (dis : π → Product)
    (att : π → List AttachedPrice) :
    ∀ (rest done : List π),
      rest.foldl (gStep key dis att) (gAcc key dis att done) =
        gAcc key dis att (done ++ rest) := by
  intro rest
  induction rest with
  | nil => intro done; simp
  | cons p t ih =>
    intro done
    rw [List.foldl_cons, gStep_gAcc, ih]
    simp

theorem foldl_gStep_eq_gAcc {π : Type} (key : π → Str) (dis : π → Product)
    (att : π → List AttachedPrice) (ps : List π) :
    ps.foldl (gStep key dis att) [] = gAcc key dis att ps := by
  have h0 : gAcc key dis att [] = [] := rfl
  have := gFold_gAcc key dis att ps []
  rw [h0] at this
  simpa using this

end KolkoKosta

namespace KolkoKosta

/-- Claim C4 (corrected): both search merge paths equal the spec-worded
grouping pipeline — group by the source's string fingerprint key
(`barcode` when non-empty, else the concatenated string
`chain + ":" + product_id`), attach exactly the prices whose store key is in
the city-filtered store index, drop groups with no prices, sort descending by
attached-price count, truncate to 50. -/
theorem c4_merge_refinement :
    (∀ (data : ArchiveData) (q : Str) (city : Option Str),
      searchProducts data q city = specSearchStr data q city) ∧
    (∀ (db : DB) (date q : Str) (city : Option Str),
      searchProductsFromDB db date q city = specSearchStrDB db date q city) := by
  constructor
  · intro data q city
    simp only [searchProducts, specSearchStr]
    by_cases h : trimL (toLowerL q) = []
    · simp [h]
    · simp only [if_neg h]
      rw [show mergeStep data city = gStep fpKey displayP (attachPrices data city) from rfl,
        foldl_gStep_eq_gAcc]
      rfl
  · intro db date q city
    simp only [searchProductsFromDB, specSearchStrDB]
    by_cases h : trimL (toLowerL q) = []
    · simp [h]
    · simp only [if_neg h]
      by_cases h2 : (dbMatching db date (trimL (toLowerL q))).isEmpty = true
      · simp [h2]
      · simp only [h2, if_false, Bool.false_eq_true]
        rw [show mergeStepDB city
              (dbStoreRows db date
                (dedupFirst ((dbMatching db date (trimL (toLowerL q))).map
                  (fun p => p.chain))) city)
              (groupFoldV (fun pr => joinKey pr.chain pr.productId) id
                (db.prices.filter (fun pr =>
                  pr.date = date &&
                    (dedupFirst ((dbMatching db date (trimL (toLowerL q))).map
                      (fun p => p.chain))).contains pr.chain &&
                    ((dbMatching db date (trimL (toLowerL q))).map
                      (fun p => p.productId)).contains pr.productId))) =
            gStep fpKeyDB dbDisplay
              (attachPricesDB city
                (dbStoreRows db date
                  (dedupFirst ((dbMatching db date (trimL (toLowerL q))).map
                    (fun p => p.chain))) city)
                (groupFoldV (fun pr => joinKey pr.chain pr.productId) id
                  (db.prices.filter (fun pr =>
                    pr.date = date &&
                      (dedupFirst ((dbMatching db date (trimL (toLowerL q))).map
                        (fun p => p.chain))).contains pr.chain &&
                      ((dbMatching db date (trimL (toLowerL q))).map
                        (fun p => p.productId)).contains pr.productId)))) from rfl,
          foldl_gStep_eq_gAcc]
        rfl

/-- Claim C4 counterexample: with empty barcodes, the products
`(chain "a", id "b:c")` and `(chain "a:b", id "c")` have distinct pair keys
but the same concatenated string key `"a:b:c"`, so the source merges them
into one group while the claim's pair grouping yields two. -/
theorem c4_merge_counterexample :
    searchProducts cxData ("x".data) none ≠ specSearchPair cxData ("x".data) none ∧
    (searchProducts cxData ("x".data) none).length = 1 ∧
    (specSearchPair cxData ("x".data) none).length = 2 := by decide

end KolkoKosta

namespace KolkoKosta

theorem strLt_irrefl : ∀ a : Str, strLt a a = false := by
  intro a
  induction a with
  | nil => rfl
  | cons c t ih => simp [strLt, ih]

theorem strLt_trans : ∀ a b c : Str, strLt a b = true → strLt b c = true →
    strLt a c = true := by
  intro a
  induction a with
  | nil =>
    intro b c hab hbc
    cases b with
    | nil => simp [strLt] at hab
    | cons y bs =>
      cases c with
      | nil => simp [strLt] at hbc
      | cons z cs => simp [strLt]
  | cons x as ih =>
    intro b c hab hbc
    cases b with
    | nil => simp [strLt] at hab
    | cons y bs =>
      cases c with
      | nil => simp [strLt] at hbc
      | cons z cs =>
        simp only [strLt, Bool.or_eq_true, Bool.and_eq_true, decide_eq_true_eq] at hab hbc ⊢
        rcases hab with hxy | ⟨hxy, hab⟩
        · rcases hbc with hyz | ⟨hyz, hbc⟩
          · exact Or.inl (lt_trans hxy hyz)
          · exact Or.inl (hyz ▸ hxy)
        · rcases hbc with hyz | ⟨hyz, hbc⟩
          · exact Or.inl (hxy ▸ hyz)
          · exact Or.inr ⟨hxy.trans hyz, ih bs cs hab hbc⟩

theorem strLt_tri : ∀ a b : Str, strLt a b = true ∨ a = b ∨ strLt b a = true := by
  intro a
  induction a with
  | nil =>
    intro b
    cases b with
    | nil => exact Or.inr (Or.inl rfl)
    | cons y bs => exact Or.inl (by simp [strLt])
  | cons x as ih =>
    intro b
    cases b with
    | nil => exact Or.inr (Or.inr (by simp [strLt]))
    | cons y bs =>
      rcases lt_trichotomy x y with hxy | hxy | hxy
      · exact Or.inl (by simp [strLt, hxy])
      · subst hxy
        rcases ih bs with h | h | h
        · exact Or.inl (by simp [strLt, h])
        · exact Or.inr (Or.inl (by rw [h]))
        · exact Or.inr (Or.inr (by simp [strLt, h]))
      · exact Or.inr (Or.inr (by simp [strLt, hxy]))

theorem strLe_total (a b : Str) : strLe a b = true ∨ strLe b a = true := by
  rcases strLt_tri a b with h | h | h
  · exact Or.inl (by simp [strLe, h])
  · exact Or.inl (by simp [strLe, h])
  · exact Or.inr (by simp [strLe, h])

theorem strLe_trans (a b c : Str) (hab : strLe a b = true) (hbc : strLe b c = true) :
    strLe a c = true := by
  simp only [strLe, Bool.or_eq_true, decide_eq_true_eq] at hab hbc ⊢
  rcases hab with hab | rfl
  · rcases hbc with hbc | rfl
    · exact Or.inl (strLt_trans a b c hab hbc)
    · exact Or.inl hab
  · exact hbc

theorem strLe_ne_lt (a b : Str) (hle : strLe a b = true) (hne : a ≠ b) :
    strLt a b = true := by
  simp only [strLe, Bool.or_eq_true, decide_eq_true_eq] at hle
  rcases hle with h | h
  · exact h
  · exact absurd h hne

theorem mem_jsInsert {α : Type} (le : α → α → Bool) (x y : α) :
    ∀ l : List α, y ∈ jsInsert le x l ↔ y = x ∨ y ∈ l := by
  intro l
  induction l with
  | nil => simp [jsInsert]
  | cons z t ih =>
    by_cases h : le x z = true
    · simp [jsInsert, h, List.mem_cons]
    · simp only [jsInsert, if_neg h, List.mem_cons, ih]
      tauto

theorem jsInsert_perm {α : Type} (le : α → α → Bool) (x : α) :
    ∀ l : List α, (jsInsert le x l).Perm (x :: l) := by
  intro l
  induction l with
  | nil => simp [jsInsert]
  | cons z t ih =>
    by_cases h : le x z = true
    · simp [jsInsert, h]
    · rw [jsInsert, if_neg h]
      exact (List.Perm.cons z ih).trans (List.Perm.swap x z t)

theorem jsSort_perm {α : Type} (le : α → α → Bool) :
    ∀ l : List α, (jsSort le l).Perm l := by
  intro l
  induction l with
  | nil => simp [jsSort]
  | cons x t ih =>
    rw [jsSort]
    exact (jsInsert_perm le x (jsSort le t)).trans (List.Perm.cons x ih)

theorem jsInsert_pairwise {α : Type} (le : α → α → Bool)
    (htrans : ∀ a b c, le a b = true → le b c = true → le a c = true)
    (htot : ∀ a b, le a b = true ∨ le b a = true) (x : α) :
    ∀ l : List α, l.Pairwise (fun a b => le a b = true) →
      (jsInsert le x l).Pairwise (fun a b => le a b = true) := by
  intro l
  induction l with
  | nil => intro _; simp [jsInsert]
  | cons z t ih =>
    intro hp
    rcases List.pairwise_cons.mp hp with ⟨hz, ht⟩
    by_cases h : le x z = true
    · rw [jsInsert, if_pos h]
      refine List.pairwise_cons.mpr ⟨?_, hp⟩
      intro b hb
      rcases List.mem_cons.mp hb with rfl | hb
      · exact h
      · exact htrans x z b h (hz b hb)
    · rw [jsInsert, if_neg h]
      refine List.pairwise_cons.mpr ⟨?_, ih ht⟩
      intro b hb
      rcases (mem_jsInsert le x b t).mp hb with hbx | hb
      · rw [hbx]
        rcases htot x z with h1 | h1
        · exact absurd h1 h
        · exact h1
      · exact hz b hb

theorem jsSort_pairwise {α : Type} (le : α → α → Bool)
    (htrans : ∀ a b c, le a b = true → le b c = true → le a c = true)
    (htot : ∀ a b, le a b = true ∨ le b a = true) :
    ∀ l : List α, (jsSort le l).Pairwise (fun a b => le a b = true) := by
  intro l
  induction l with
  | nil => simp [jsSort]
  | cons x t ih =>
    rw [jsSort]
    exact jsInsert_pairwise le htrans htot x (jsSort le t) ih

end KolkoKosta

namespace KolkoKosta

theorem keyed_any_iff {γ : Type} (K : List Str) (F : Str → γ) (k : Str) :
    ((K.map (fun k' => (k', F k'))).any (fun e => e.1 = k) = true) ↔ k ∈ K := by
  rw [List.any_eq_true]
  constructor
  · rintro ⟨e, he, hk⟩
    rcases List.mem_map.mp he with ⟨k', hk', rfl⟩
    simp only [decide_eq_true_eq] at hk
    exact hk ▸ hk'
  · intro hk
    exact ⟨_, List.mem_map.mpr ⟨k, hk, rfl⟩, by simp⟩

theorem gvStep_acc {α β : Type} (key : α → Str) (val : α → β) (done : List α) (x : α) :
    gvStep key val
      ((dedupFirst (done.map key)).map
        (fun k => (k, (done.filter (fun y => key y = k)).map val))) x =
    (dedupFirst ((done ++ [x]).map key)).map
      (fun k => (k, ((done ++ [x]).filter (fun y => key y = k)).map val)) := by
  rw [List.map_append, List.map_singleton, dedupFirst_append_singleton]
  by_cases hmem : key x ∈ dedupFirst (done.map key)
  · have hany := (keyed_any_iff (dedupFirst (done.map key))
      (fun k => (done.filter (fun y => key y = k)).map val) (key x)).mpr hmem
    simp only [gvStep]
    rw [if_pos hany, if_pos hmem, List.map_map]
    apply List.map_congr_left
    intro k' hk'
    simp only [Function.comp_apply]
    by_cases hkk : k' = key x
    · subst hkk
      rw [List.filter_append, List.filter_singleton]
      simp
    · have hne : ¬ key x = k' := fun hh => hkk hh.symm
      rw [List.filter_append, List.filter_singleton]
      simp [hkk, hne]
  · have hany : ¬ ((dedupFirst (done.map key)).map
        (fun k => (k, (done.filter (fun y => key y = k)).map val))).any
          (fun e => e.1 = key x) = true :=
      fun hh => hmem ((keyed_any_iff _ _ _).mp hh)
    simp only [gvStep]
    rw [if_neg hany, if_neg hmem, List.map_append, List.map_append, List.map_singleton,
      List.map_singleton]
    congr 1
    · rw [List.map_map]
      apply List.map_congr_left
      intro k' hk'
      have hkk : ¬ key x = k' := by
        intro hh
        exact hmem (hh ▸ hk')
      have hkk' : ¬ k' = key x := fun hh => hkk hh.symm
      simp only [Function.comp_apply]
      rw [List.filter_append, List.filter_singleton]
      simp [hkk, hkk']
    · have hfilter : done.filter (fun y => key y = key x) = [] := by
        rw [List.filter_eq_nil_iff]
        intro q hq hkey
        simp only [decide_eq_true_eq] at hkey
        exact hmem ((mem_dedupFirst _ _).mpr (List.mem_map.mpr ⟨q, hq, hkey⟩))
      rw [List.filter_append, hfilter, List.filter_singleton]
      simp

theorem groupFoldV_eq {α β : Type} (key : α → Str) (val : α → β) (xs : List α) :
    groupFoldV key val xs =
      (dedupFirst (xs.map key)).map
        (fun k => (k, (xs.filter (fun y => key y = k)).map val)) := by
  suffices h : ∀ (rest done : List α),
      rest.foldl (gvStep key val)
        ((dedupFirst (done.map key)).map
          (fun k => (k, (done.filter (fun y => key y = k)).map val))) =
      (dedupFirst ((done ++ rest).map key)).map
        (fun k => (k, ((done ++ rest).filter (fun y => key y = k)).map val)) by
    have h0 := h xs []
    simpa [groupFoldV] using h0
  intro rest
  induction rest with
  | nil => intro done; simp
  | cons x t ih =>
    intro done
    rw [List.foldl_cons, gvStep_acc, ih]
    simp

end KolkoKosta

namespace KolkoKosta

theorem foldl_min_le_init (t : List Rat) : ∀ a : Rat, t.foldl min a ≤ a := by
  induction t with
  | nil => intro a; simp
  | cons x s ih =>
    intro a
    calc (x :: s).foldl min a = s.foldl min (min a x) := by rw [List.foldl_cons]
    _ ≤ min a x := ih (min a x)
    _ ≤ a := min_le_left a x

theorem foldl_min_le_mem (t : List Rat) : ∀ (a x : Rat), x ∈ t → t.foldl min a ≤ x := by
  induction t with
  | nil => intro a x hx; simp at hx
  | cons y s ih =>
    intro a x hx
    rcases List.mem_cons.mp hx with rfl | hx
    · calc (x :: s).foldl min a = s.foldl min (min a x) := by rw [List.foldl_cons]
      _ ≤ min a x := foldl_min_le_init s (min a x)
      _ ≤ x := min_le_right a x
    · rw [List.foldl_cons]
      exact ih (min a y) x hx

theorem listMin_le (l : List Rat) (x : Rat) (hx : x ∈ l) : listMin l ≤ x := by
  cases l with
  | nil => simp at hx
  | cons h t =>
    rw [listMin]
    rcases List.mem_cons.mp hx with rfl | hx
    · exact foldl_min_le_init t x
    · exact foldl_min_le_mem t h x hx

theorem init_le_foldl_max (t : List Rat) : ∀ a : Rat, a ≤ t.foldl max a := by
  induction t with
  | nil => intro a; simp
  | cons x s ih =>
    intro a
    calc a ≤ max a x := le_max_left a x
    _ ≤ s.foldl max (max a x) := ih (max a x)
    _ = (x :: s).foldl max a := by rw [List.foldl_cons]

theorem mem_le_foldl_max (t : List Rat) : ∀ (a x : Rat), x ∈ t → x ≤ t.foldl max a := by
  induction t with
  | nil => intro a x hx; simp at hx
  | cons y s ih =>
    intro a x hx
    rcases List.mem_cons.mp hx with rfl | hx
    · calc x ≤ max a x := le_max_right a x
      _ ≤ s.foldl max (max a x) := init_le_foldl_max s (max a x)
      _ = (x :: s).foldl max a := by rw [List.foldl_cons]
    · rw [List.foldl_cons]
      exact ih (max a y) x hx

theorem le_listMax (l : List Rat) (x : Rat) (hx : x ∈ l) : x ≤ listMax l := by
  cases l with
  | nil => simp at hx
  | cons h t =>
    rw [listMax]
    rcases List.mem_cons.mp hx with rfl | hx
    · exact init_le_foldl_max t x
    · exact mem_le_foldl_max t h x hx

theorem foldl_add_shift (t : List Rat) : ∀ a : Rat, t.foldl (fun u v => u + v) a =
    a + t.foldl (fun u v => u + v) 0 := by
  induction t with
  | nil => intro a; simp
  | cons x s ih =>
    intro a
    rw [List.foldl_cons, List.foldl_cons, ih (a + x), ih (0 + x)]
    ring

theorem listSum_cons (h : Rat) (t : List Rat) : listSum (h :: t) = h + listSum t := by
  rw [listSum, listSum, List.foldl_cons, foldl_add_shift]
  ring

theorem mul_len_le_listSum (l : List Rat) (m : Rat) (hm : ∀ x ∈ l, m ≤ x) :
    (l.length : Rat) * m ≤ listSum l := by
  induction l with
  | nil => simp [listSum]
  | cons x t ih =>
    rw [listSum_cons, List.length_cons]
    have h1 : (t.length : Rat) * m ≤ listSum t := ih (fun y hy => hm y (List.mem_cons_of_mem x hy))
    have h2 : m ≤ x := hm x (List.mem_cons_self x t)
    push_cast
    nlinarith

theorem listSum_le_mul_len (l : List Rat) (m : Rat) (hm : ∀ x ∈ l, x ≤ m) :
    listSum l ≤ (l.length : Rat) * m := by
  induction l with
  | nil => simp [listSum]
  | cons x t ih =>
    rw [listSum_cons, List.length_cons]
    have h1 : listSum t ≤ (t.length : Rat) * m := ih (fun y hy => hm y (List.mem_cons_of_mem x hy))
    have h2 : x ≤ m := hm x (List.mem_cons_self x t)
    push_cast
    nlinarith

theorem min_le_avg_le_max (l : List Rat) (hne : l ≠ []) :
    listMin l ≤ listSum l / (l.length : Rat) ∧
    listSum l / (l.length : Rat) ≤ listMax l := by
  have hlen : 0 < (l.length : Rat) := by
    have : 0 < l.length := List.length_pos.mpr hne
    exact_mod_cast this
  constructor
  · rw [le_div_iff₀ hlen]
    calc listMin l * (l.length : Rat) = (l.length : Rat) * listMin l := by ring
    _ ≤ listSum l := mul_len_le_listSum l (listMin l) (fun x hx => listMin_le l x hx)
  · rw [div_le_iff₀ hlen]
    calc listSum l ≤ (l.length : Rat) * listMax l :=
      listSum_le_mul_len l (listMax l) (fun x hx => le_listMax l x hx)
    _ = listMax l * (l.length : Rat) := by ring

end KolkoKosta

namespace KolkoKosta

theorem foldl_histStep (db : DB) (barcode productName city chain : Option Str) :
    ∀ (L : List Str) (acc : List HistoryPoint),
      L.foldl (histStep db barcode productName city chain) acc =
        acc ++ L.filterMap (historyEntry db barcode productName city chain) := by
  intro L
  induction L with
  | nil => intro acc; simp
  | cons d t ih =>
    intro acc
    rw [List.foldl_cons]
    cases hf : historyEntry db barcode productName city chain d with
    | none =>
      rw [List.filterMap_cons, hf]
      rw [show histStep db barcode productName city chain acc d = acc from by
        simp [histStep, hf]]
      exact ih acc
    | some e =>
      rw [List.filterMap_cons, hf]
      rw [show histStep db barcode productName city chain acc d = acc ++ [e] from by
        simp [histStep, hf]]
      rw [ih]
      simp

theorem historyEntry_date (db : DB) (barcode productName city chain : Option Str)
    (date : Str) (e : HistoryPoint)
    (h : historyEntry db barcode productName city chain date = some e) :
    e.date = date := by
  simp only [historyEntry] at h
  by_cases h1 : (historyConsidered db barcode productName chain date).isEmpty = true
  · rw [if_pos h1] at h; cases h
  · rw [if_neg h1] at h
    by_cases h2 : (groupFoldV (fun pr => pr.chain) (fun pr => pr.price)
        (histPassRows db barcode productName city chain date)).isEmpty = true
    · rw [if_pos h2] at h; cases h
    · rw [if_neg h2] at h
      rw [← Option.some.inj h]

theorem historyEntry_summary (db : DB) (barcode productName city chain : Option Str)
    (date : Str) (e : HistoryPoint)
    (h : historyEntry db barcode productName city chain date = some e) :
    ∀ cs ∈ e.prices,
      ((histPassRows db barcode productName city chain date).filter
          (fun pr => pr.chain = cs.chain)).map (fun pr => pr.price) ≠ [] ∧
      cs.minPrice =
        listMin (((histPassRows db barcode productName city chain date).filter
          (fun pr => pr.chain = cs.chain)).map (fun pr => pr.price)) ∧
      cs.avgPrice =
        listSum (((histPassRows db barcode productName city chain date).filter
            (fun pr => pr.chain = cs.chain)).map (fun pr => pr.price)) /
          ((((histPassRows db barcode productName city chain date).filter
            (fun pr => pr.chain = cs.chain)).map (fun pr => pr.price)).length : Rat) := by
  simp only [historyEntry] at h
  by_cases h1 : (historyConsidered db barcode productName chain date).isEmpty = true
  · rw [if_pos h1] at h; cases h
  · rw [if_neg h1] at h
    by_cases h2 : (groupFoldV (fun pr => pr.chain) (fun pr => pr.price)
        (histPassRows db barcode productName city chain date)).isEmpty = true
    · rw [if_pos h2] at h; cases h
    · rw [if_neg h2] at h
      intro cs hcs
      rw [← Option.some.inj h] at hcs
      simp only [groupFoldV_eq] at hcs
      rw [List.map_map] at hcs
      rcases List.mem_map.mp hcs with ⟨k, hk, rfl⟩
      have hne : ((histPassRows db barcode productName city chain date).filter
          (fun q => q.chain = k)).map (fun pr => pr.price) ≠ [] := by
        rcases List.mem_map.mp ((mem_dedupFirst _ _).mp hk) with ⟨pr, hpr, hchain⟩
        have hmemf : pr ∈ (histPassRows db barcode productName city chain date).filter
            (fun q => q.chain = k) :=
          List.mem_filter.mpr ⟨hpr, by simp [hchain]⟩
        intro hnil
        rw [List.map_eq_nil_iff] at hnil
        rw [hnil] at hmemf
        simp at hmemf
      exact ⟨hne, rfl, rfl⟩

end KolkoKosta

namespace KolkoKosta

theorem filterMap_dates_sublist (f : Str → Option HistoryPoint)
    (hf : ∀ d e, f d = some e → e.date = d) :
    ∀ L : List Str, ((L.filterMap f).map (fun e => e.date)).Sublist L := by
  intro L
  induction L with
  | nil => simp
  | cons d t ih =>
    rw [List.filterMap_cons]
    cases hfd : f d with
    | none => exact ih.cons d
    | some e =>
      rw [List.map_cons, hf d e hfd]
      exact ih.cons₂ d

/-- Claim C6 (confirmed): assuming the unique index on `ingestion_log.date`
(no two log rows share a date), the history output is sorted strictly
ascending by date, no date repeats, and every chain summary's `minPrice` and
`avgPrice` are the minimum and arithmetic mean of the observed prices of that
(date, chain), with `minPrice ≤ avgPrice ≤ max` of the same observations. -/
theorem c6_history_invariants (db : DB) (barcode productName city chain : Option Str)
    (days : Nat) (hnd : (db.log.map (fun r => r.date)).Nodup) :
    (getPriceHistoryFromDB db barcode productName city chain days).Pairwise
      (fun a b => strLt a.date b.date = true) ∧
    ((getPriceHistoryFromDB db barcode productName city chain days).map
      (fun e => e.date)).Nodup ∧
    ∀ e ∈ getPriceHistoryFromDB db barcode productName city chain days,
      ∀ cs ∈ e.prices, ∃ obs : List Rat,
        obs = ((histPassRows db barcode productName city chain e.date).filter
          (fun pr => pr.chain = cs.chain)).map (fun pr => pr.price) ∧
        obs ≠ [] ∧ cs.minPrice = listMin obs ∧
        cs.avgPrice = listSum obs / (obs.length : Rat) ∧
        cs.minPrice ≤ cs.avgPrice ∧ cs.avgPrice ≤ listMax obs := by
  simp only [getPriceHistoryFromDB]
  by_cases hemp : (((jsSort (fun (a b : LogRow) => strLe b.date a.date)
      (db.log.filter (fun r => r.status = ("success".data)))).take days).map
        (fun r => r.date)).isEmpty = true
  · rw [if_pos hemp]
    simp
  · rw [if_neg hemp, foldl_histStep, List.nil_append]
    have havail : ((((jsSort (fun (a b : LogRow) => strLe b.date a.date)
        (db.log.filter (fun r => r.status = ("success".data)))).take days).map
          (fun r => r.date))).Nodup := by
      have h2 : ((db.log.filter (fun r => r.status = ("success".data))).map
          (fun r => r.date)).Nodup :=
        ((List.filter_sublist db.log).map (fun r => r.date)).nodup hnd
      have h3 : ((jsSort (fun (a b : LogRow) => strLe b.date a.date)
          (db.log.filter (fun r => r.status = ("success".data)))).map
            (fun r => r.date)).Nodup :=
        (((jsSort_perm (fun (a b : LogRow) => strLe b.date a.date)
          (db.log.filter (fun r => r.status = ("success".data)))).map
            (fun r => r.date)).symm).nodup h2
      rw [List.map_take]
      exact (List.take_sublist days _).nodup h3
    have hsubdates : (((((jsSort (fun (a b : LogRow) => strLe b.date a.date)
        (db.log.filter (fun r => r.status = ("success".data)))).take days).map
          (fun r => r.date)).filterMap
            (historyEntry db barcode productName city chain)).map
              (fun e => e.date)).Sublist
        ((((jsSort (fun (a b : LogRow) => strLe b.date a.date)
          (db.log.filter (fun r => r.status = ("success".data)))).take days).map
            (fun r => r.date))) :=
      filterMap_dates_sublist (historyEntry db barcode productName city chain)
        (fun d e h => historyEntry_date db barcode productName city chain d e h) _
    have hhistnd : ((((((jsSort (fun (a b : LogRow) => strLe b.date a.date)
        (db.log.filter (fun r => r.status = ("success".data)))).take days).map
          (fun r => r.date)).filterMap
            (historyEntry db barcode productName city chain))).map
              (fun e => e.date)).Nodup :=
      hsubdates.nodup havail
    have houtnd : (((jsSort (fun (a b : HistoryPoint) => strLe a.date b.date)
        ((((jsSort (fun (a b : LogRow) => strLe b.date a.date)
          (db.log.filter (fun r => r.status = ("success".data)))).take days).map
            (fun r => r.date)).filterMap
              (historyEntry db barcode productName city chain)))).map
                (fun e => e.date)).Nodup :=
      (((jsSort_perm (fun (a b : HistoryPoint) => strLe a.date b.date) _).map
        (fun e => e.date)).symm).nodup hhistnd
    have hsorted := jsSort_pairwise (fun (a b : HistoryPoint) => strLe a.date b.date)
      (fun a b c hab hbc => strLe_trans a.date b.date c.date hab hbc)
      (fun a b => strLe_total a.date b.date)
      ((((jsSort (fun (a b : LogRow) => strLe b.date a.date)
        (db.log.filter (fun r => r.status = ("success".data)))).take days).map
          (fun r => r.date)).filterMap
            (historyEntry db barcode productName city chain))
    have hneq : (jsSort (fun (a b : HistoryPoint) => strLe a.date b.date)
        ((((jsSort (fun (a b : LogRow) => strLe b.date a.date)
          (db.log.filter (fun r => r.status = ("success".data)))).take days).map
            (fun r => r.date)).filterMap
              (historyEntry db barcode productName city chain))).Pairwise
        (fun a b => a.date ≠ b.date) :=
      List.pairwise_map.mp houtnd
    refine ⟨?_, houtnd, ?_⟩
    · exact (hsorted.and hneq).imp (fun hab => strLe_ne_lt _ _ hab.1 hab.2)
    · intro e he cs hcs
      have he2 : e ∈ (((jsSort (fun (a b : LogRow) => strLe b.date a.date)
          (db.log.filter (fun r => r.status = ("success".data)))).take days).map
            (fun r => r.date)).filterMap
              (historyEntry db barcode productName city chain) :=
        ((jsSort_perm (fun (a b : HistoryPoint) => strLe a.date b.date) _).mem_iff).mp he
      rcases List.mem_filterMap.mp he2 with ⟨d, _, hd⟩
      have hdate : e.date = d := historyEntry_date db barcode productName city chain d e hd
      have hsum := historyEntry_summary db barcode productName city chain d e hd cs hcs
      refine ⟨((histPassRows db barcode productName city chain e.date).filter
        (fun pr => pr.chain = cs.chain)).map (fun pr => pr.price), rfl, ?_, ?_, ?_, ?_, ?_⟩
      · rw [hdate]; exact hsum.1
      · rw [hdate]; exact hsum.2.1
      · rw [hdate]; exact hsum.2.2
      · rw [hsum.2.1, hsum.2.2]
        exact (min_le_avg_le_max _ hsum.1).1
      · rw [hdate, hsum.2.2]
        exact (min_le_avg_le_max _ hsum.1).2

end KolkoKosta

namespace KolkoKosta

/-- Witness for the history-invariants claim at a catalog with one ingested
date and no products. -/
theorem c6_history_invariants_witness :
    ((dbOneDate.log.map (fun r => r.date)).Nodup) ∧
    (getPriceHistoryFromDB dbOneDate none none none none 7).Pairwise
      (fun a b => strLt a.date b.date = true) :=
  ⟨by decide, (c6_history_invariants dbOneDate none none none none 7 (by decide)).1⟩

theorem historyConsidered_pruned (db : DB) (barcode productName chain : Option Str)
    (date : Str) :
    historyConsidered (histPrunedPrices db barcode productName chain) barcode
        productName chain date =
      historyConsidered db barcode productName chain date := rfl

theorem histCityKeys_pruned (db : DB) (barcode productName chain : Option Str)
    (c date : Str) :
    histCityKeys (histPrunedPrices db barcode productName chain) c date =
      histCityKeys db c date := rfl

theorem histPriceRows_pruned (db : DB) (barcode productName chain : Option Str)
    (date : Str) :
    histPriceRows (histPrunedPrices db barcode productName chain) barcode
        productName chain date =
      histPriceRows db barcode productName chain date := by
  simp only [histPriceRows, historyConsidered_pruned]
  show ((histPrunedPrices db barcode productName chain).prices.filter _) = _
  simp only [histPrunedPrices]
  rw [List.filter_filter]
  apply List.filter_congr
  intro pr hpr
  by_cases hq : (pr.date = date &&
      (dedupFirst ((historyConsidered db barcode productName chain date).map
        (fun p => p.chain))).contains pr.chain &&
      ((historyConsidered db barcode productName chain date).map
        (fun p => p.productId)).contains pr.productId) = true
  · rw [hq, Bool.true_and]
    simp only [Bool.and_eq_true, decide_eq_true_eq] at hq
    rcases hq with ⟨⟨hdate, hchain⟩, hid⟩
    rw [hdate, hchain, hid, Bool.and_self]
  · rw [Bool.not_eq_true] at hq
    rw [hq, Bool.false_and]

theorem histPassRows_pruned (db : DB) (barcode productName city chain : Option Str)
    (date : Str) :
    histPassRows (histPrunedPrices db barcode productName chain) barcode
        productName city chain date =
      histPassRows db barcode productName city chain date := by
  simp only [histPassRows, histPriceRows_pruned, histCityKeys_pruned]

theorem historyEntry_pruned (db : DB) (barcode productName city chain : Option Str)
    (date : Str) :
    historyEntry (histPrunedPrices db barcode productName chain) barcode
        productName city chain date =
      historyEntry db barcode productName city chain date := by
  simp only [historyEntry, historyConsidered_pruned, histPassRows_pruned]

/-- Claim C10 (confirmed): the history path considers at most 200 matching
product rows per date, and the output is unchanged when every price row not
referenced by that capped set is deleted — prices of matching products beyond
the cap are silently excluded from the per-chain minimum and mean. -/
theorem c10_history_cap (db : DB) (barcode productName city chain : Option Str)
    (days : Nat) :
    (∀ date : Str, (historyConsidered db barcode productName chain date).length ≤ 200) ∧
    getPriceHistoryFromDB (histPrunedPrices db barcode productName chain) barcode
        productName city chain days =
      getPriceHistoryFromDB db barcode productName city chain days := by
  constructor
  · intro date
    simp only [historyConsidered]
    exact List.length_take_le 200 _
  · simp only [getPriceHistoryFromDB]
    have hlog : (histPrunedPrices db barcode productName chain).log = db.log := rfl
    rw [hlog]
    have hstep : histStep (histPrunedPrices db barcode productName chain) barcode
        productName city chain = histStep db barcode productName city chain := by
      funext acc date
      simp only [histStep, historyEntry_pruned]
    rw [hstep]

end KolkoKosta

namespace KolkoKosta

theorem tablesAppend_refl (date : Str) (db : DB) : TablesAppend date db db :=
  ⟨⟨[], by simp⟩, ⟨[], by simp⟩, ⟨[], by simp⟩⟩

theorem tablesAppend_trans (date : Str) (d1 d2 d3 : DB)
    (h12 : TablesAppend date d1 d2) (h23 : TablesAppend date d2 d3) :
    TablesAppend date d1 d3 := by
  obtain ⟨⟨ns1, hs1, hd1⟩, ⟨np1, hp1, he1⟩, ⟨nq1, hq1, hf1⟩⟩ := h12
  obtain ⟨⟨ns2, hs2, hd2⟩, ⟨np2, hp2, he2⟩, ⟨nq2, hq2, hf2⟩⟩ := h23
  refine ⟨⟨ns1 ++ ns2, ?_, ?_⟩, ⟨np1 ++ np2, ?_, ?_⟩, ⟨nq1 ++ nq2, ?_, ?_⟩⟩
  · rw [hs2, hs1, List.append_assoc]
  · intro x hx
    rcases List.mem_append.mp hx with h | h
    · exact hd1 x h
    · exact hd2 x h
  · rw [hp2, hp1, List.append_assoc]
  · intro x hx
    rcases List.mem_append.mp hx with h | h
    · exact he1 x h
    · exact he2 x h
  · rw [hq2, hq1, List.append_assoc]
  · intro x hx
    rcases List.mem_append.mp hx with h | h
    · exact hf1 x h
    · exact hf2 x h

theorem insStores_append (date : Str) (db : DB) (rows : List StoreRow)
    (h : ∀ x ∈ rows, x.date = date) : TablesAppend date db (insStores db rows) :=
  ⟨⟨rows, rfl, h⟩, ⟨[], by simp [insStores]⟩, ⟨[], by simp [insStores]⟩⟩

theorem insProducts_append (date : Str) (db : DB) (rows : List ProductRow)
    (h : ∀ x ∈ rows, x.date = date) : TablesAppend date db (insProducts db rows) :=
  ⟨⟨[], by simp [insProducts]⟩, ⟨rows, rfl, h⟩, ⟨[], by simp [insProducts]⟩⟩

theorem insPrices_append (date : Str) (db : DB) (rows : List PriceRow)
    (h : ∀ x ∈ rows, x.date = date) : TablesAppend date db (insPrices db rows) :=
  ⟨⟨[], by simp [insPrices]⟩, ⟨[], by simp [insPrices]⟩, ⟨rows, rfl, h⟩⟩

theorem insertBatches_append {α : Type} (date : Str) (err : Nat → Bool)
    (ins : DB → List α → DB) :
    ∀ (bs : List (List α)), (∀ (d : DB) (b : List α), b ∈ bs → TablesAppend date d (ins d b)) →
      ∀ (db : DB) (i : Nat), TablesAppend date db (insertBatches err ins db i bs).1 := by
  intro bs
  induction bs with
  | nil => intro _ db i; exact tablesAppend_refl date db
  | cons b t ih =>
    intro hins db i
    rw [insertBatches]
    by_cases he : err i = true
    · rw [if_pos he]
      exact tablesAppend_refl date db
    · rw [if_neg he]
      exact tablesAppend_trans date db (ins db b) _
        (hins db b (List.mem_cons_self b t))
        (ih (fun d b' hb' => hins d b' (List.mem_cons_of_mem b hb')) (ins db b) (i + 1))

theorem chunksGo_subset {α : Type} :
    ∀ (fuel : Nat) (l b : List α), b ∈ chunksGo fuel l → ∀ x ∈ b, x ∈ l := by
  intro fuel
  induction fuel with
  | zero =>
    intro l b hb
    cases l with
    | nil => simp [chunksGo] at hb
    | cons y ys => simp [chunksGo] at hb
  | succ n ih =>
    intro l b hb
    cases l with
    | nil => simp [chunksGo] at hb
    | cons y ys =>
      rw [chunksGo] at hb
      rcases List.mem_cons.mp hb with rfl | hb
      · intro x hx
        exact List.take_subset 500 (y :: ys) hx
      · intro x hx
        exact List.drop_subset 500 (y :: ys) (ih ((y :: ys).drop 500) b hb x hx)

theorem ingestFile_append {α : Type} (date : Str) (env : IngestEnv) (chain file : Str)
    (mk : List (Str × Str) → α) (ins : DB → List α → DB) (tbl : Str) (db : DB)
    (hmk : ∀ rows, (∀ x ∈ rows, x ∈ (parseCSVText ((env.memberCsv chain file).getD [])).map mk) →
      ∀ d, TablesAppend date d (ins d rows)) :
    TablesAppend date db (ingestFile env chain file mk ins tbl db).1 := by
  cases hm : env.memberCsv chain file with
  | none =>
    simp only [ingestFile, hm]
    exact tablesAppend_refl date db
  | some text =>
    simp only [ingestFile, hm]
    by_cases hf : env.fetchErr chain file = true
    · rw [if_pos hf]
      exact tablesAppend_refl date db
    · rw [if_neg hf]
      by_cases hr : ((parseCSVText text).map mk).isEmpty = true
      · rw [if_pos hr]
        exact tablesAppend_refl date db
      · rw [if_neg hr]
        have hbatches := insertBatches_append date (env.insertErr tbl chain) ins
          (chunks500 ((parseCSVText text).map mk))
          (fun d b hb =>
            hmk b (fun x hx => by
              have := chunksGo_subset _ _ b hb x hx
              simpa [hm] using this) d)
          db 0
        by_cases hfail : (insertBatches (env.insertErr tbl chain) ins db 0
            (chunks500 ((parseCSVText text).map mk))).2 = true
        · rw [if_pos hfail]
          exact hbatches
        · rw [if_neg hfail]
          exact hbatches

end KolkoKosta

namespace KolkoKosta

theorem processChain_append (env : IngestEnv) (date : Str)
    (st : DB × IngestTotals × List Str) (chain : Str) :
    TablesAppend date st.1 (processChain env date st chain).1 := by
  have h1 := ingestFile_append date env chain ("stores.csv".data) (toStoreRow chain date)
    insStores ("stores".data) st.1
    (fun rows hrows d => insStores_append date d rows (fun x hx => by
      rcases List.mem_map.mp (hrows x hx) with ⟨r, _, rfl⟩
      rfl))
  have h2 := fun (d : DB) => ingestFile_append date env chain ("products.csv".data)
    (toProductRow chain date) insProducts ("products".data) d
    (fun rows hrows d' => insProducts_append date d' rows (fun x hx => by
      rcases List.mem_map.mp (hrows x hx) with ⟨r, _, rfl⟩
      rfl))
  have h3 := fun (d : DB) => ingestFile_append date env chain ("prices.csv".data)
    (toPriceRow chain date) insPrices ("prices".data) d
    (fun rows hrows d' => insPrices_append date d' rows (fun x hx => by
      rcases List.mem_map.mp (hrows x hx) with ⟨r, _, rfl⟩
      rfl))
  simp only [processChain]
  by_cases hs : (ingestFile env chain ("stores.csv".data) (toStoreRow chain date)
      insStores ("stores".data) st.1).2.2 = true
  · rw [if_pos hs]
    exact h1
  · rw [if_neg hs]
    by_cases hp : (ingestFile env chain ("products.csv".data) (toProductRow chain date)
        insProducts ("products".data)
        (ingestFile env chain ("stores.csv".data) (toStoreRow chain date) insStores
          ("stores".data) st.1).1).2.2 = true
    · rw [if_pos hp]
      exact tablesAppend_trans date _ _ _ h1 (h2 _)
    · rw [if_neg hp]
      by_cases hq : (ingestFile env chain ("prices.csv".data) (toPriceRow chain date)
          insPrices ("prices".data)
          (ingestFile env chain ("products.csv".data) (toProductRow chain date)
            insProducts ("products".data)
            (ingestFile env chain ("stores.csv".data) (toStoreRow chain date) insStores
              ("stores".data) st.1).1).1).2.2 = true
      · rw [if_pos hq]
        exact tablesAppend_trans date _ _ _
          (tablesAppend_trans date _ _ _ h1 (h2 _)) (h3 _)
      · rw [if_neg hq]
        exact tablesAppend_trans date _ _ _
          (tablesAppend_trans date _ _ _ h1 (h2 _)) (h3 _)

theorem foldl_processChain_append (env : IngestEnv) (date : Str) :
    ∀ (chains : List Str) (st : DB × IngestTotals × List Str),
      TablesAppend date st.1 (chains.foldl (processChain env date) st).1 := by
  intro chains
  induction chains with
  | nil => intro st; exact tablesAppend_refl date st.1
  | cons c t ih =>
    intro st
    rw [List.foldl_cons]
    exact tablesAppend_trans date _ _ _ (processChain_append env date st c)
      (ih (processChain env date st c))

theorem find?_map_date_preserving (log : List LogRow) (date : Str) (f : LogRow → LogRow)
    (hf : ∀ r, (f r).date = r.date) :
    (log.map f).find? (fun r => r.date = date) =
      (log.find? (fun r => r.date = date)).map f := by
  induction log with
  | nil => simp
  | cons r t ih =>
    by_cases hr : r.date = date
    · simp [List.find?_cons, hf r, hr]
    · simp [List.find?_cons, hf r, hr, ih]

theorem logStatus_logSuccess (db : DB) (date : Str) (tot : IngestTotals) :
    logStatus (logSuccess db date tot) date = some ("success".data) := by
  simp only [logSuccess]
  by_cases h : db.log.any (fun r => r.date = date) = true
  · rw [if_pos h]
    simp only [logStatus]
    rw [find?_map_date_preserving db.log date _ (fun r => by
      by_cases hr : r.date = date
      · simp [hr]
      · simp [hr])]
    rcases List.any_eq_true.mp h with ⟨x, hx, hpx⟩
    have hsome : (db.log.find? (fun r => r.date = date)).isSome = true := by
      rw [List.find?_isSome]
      exact ⟨x, hx, hpx⟩
    rcases Option.isSome_iff_exists.mp hsome with ⟨r, hr⟩
    rw [hr]
    have hpr : r.date = date := by simpa using List.find?_some hr
    simp [hpr]
  · rw [if_neg h]
    simp only [logStatus]
    have hnone : db.log.find? (fun r => r.date = date) = none :=
      List.find?_eq_none.mpr (fun x hx hpx => h (List.any_eq_true.mpr ⟨x, hx, hpx⟩))
    rw [List.find?_append, hnone]
    simp

theorem logStatus_logError (db : DB) (date : Str) (msg : Str) :
    logStatus (logError db date msg) date = some ("error".data) := by
  simp only [logError]
  by_cases h : db.log.any (fun r => r.date = date) = true
  · rw [if_pos h]
    simp only [logStatus]
    rw [find?_map_date_preserving db.log date _ (fun r => by
      by_cases hr : r.date = date
      · simp [hr]
      · simp [hr])]
    rcases List.any_eq_true.mp h with ⟨x, hx, hpx⟩
    have hsome : (db.log.find? (fun r => r.date = date)).isSome = true := by
      rw [List.find?_isSome]
      exact ⟨x, hx, hpx⟩
    rcases Option.isSome_iff_exists.mp hsome with ⟨r, hr⟩
    rw [hr]
    have hpr : r.date = date := by simpa using List.find?_some hr
    simp [hpr]
  · rw [if_neg h]
    simp only [logStatus]
    have hnone : db.log.find? (fun r => r.date = date) = none :=
      List.find?_eq_none.mpr (fun x hx hpx => h (List.any_eq_true.mpr ⟨x, hx, hpx⟩))
    rw [List.find?_append, hnone]
    simp

theorem logStatus_of_alreadyIngested (db : DB) (date : Str)
    (h : alreadyIngested db date = true) :
    logStatus db date = some ("success".data) := by
  rw [alreadyIngested] at h
  rw [logStatus]
  cases hf : db.log.find? (fun r => r.date = date) with
  | none => rw [hf] at h; simp at h
  | some r =>
    rw [hf] at h
    simp only [decide_eq_true_eq] at h
    simp [h]

theorem logSuccess_tables (db : DB) (date : Str) (tot : IngestTotals) :
    (logSuccess db date tot).stores = db.stores ∧
    (logSuccess db date tot).products = db.products ∧
    (logSuccess db date tot).prices = db.prices := by
  simp only [logSuccess]
  by_cases h : db.log.any (fun r => r.date = date) = true
  · rw [if_pos h]; exact ⟨rfl, rfl, rfl⟩
  · rw [if_neg h]; exact ⟨rfl, rfl, rfl⟩

end KolkoKosta

namespace KolkoKosta

/-- Claim C2 (corrected): when the archive-level steps succeed, `ingestDate`
always completes and writes a `success` log row for the date — even when
member fetches or inserts inside chain tasks fail; without `force` no rows
are deleted (the tables only grow); with `force` the existing rows for the
date are deleted first and only rows stamped with the date are appended.  A
`status='error'` row is written (and the error rethrown) only when an
archive-level step fails. -/
theorem c2_ingest_semantics :
    (∀ (env : IngestEnv) (date : Str) (force : Bool) (db : DB),
      env.headOk = true → env.dirOk = true →
      (ingestDate env date force db).threw = false ∧
      logStatus (ingestDate env date force db).db date = some ("success".data) ∧
      (force = false →
        (∀ x ∈ db.stores, x ∈ (ingestDate env date force db).db.stores) ∧
        (∀ x ∈ db.products, x ∈ (ingestDate env date force db).db.products) ∧
        (∀ x ∈ db.prices, x ∈ (ingestDate env date force db).db.prices)) ∧
      (force = true →
        (∃ ns, (ingestDate env date force db).db.stores =
            db.stores.filter (fun r => !(r.date = date)) ++ ns ∧
          ∀ x ∈ ns, x.date = date) ∧
        (∃ np, (ingestDate env date force db).db.products =
            db.products.filter (fun r => !(r.date = date)) ++ np ∧
          ∀ x ∈ np, x.date = date) ∧
        (∃ nq, (ingestDate env date force db).db.prices =
            db.prices.filter (fun r => !(r.date = date)) ++ nq ∧
          ∀ x ∈ nq, x.date = date))) ∧
    (∀ (env : IngestEnv) (date : Str) (force : Bool) (db : DB),
      env.headOk = false → (force = true ∨ alreadyIngested db date = false) →
      (ingestDate env date force db).threw = true ∧
      logStatus (ingestDate env date force db).db date = some ("error".data)) := by
  constructor
  · intro env date force db hh hd
    by_cases hsc : (!force && alreadyIngested db date) = true
    · have hres : ingestDate env date force db = ⟨db, false, []⟩ := by
        rw [ingestDate, if_pos hsc]
      rw [hres]
      rw [Bool.and_eq_true] at hsc
      rcases hsc with ⟨hnf, hai⟩
      refine ⟨rfl, logStatus_of_alreadyIngested db date hai, ?_, ?_⟩
      · intro _
        exact ⟨fun x hx => hx, fun x hx => hx, fun x hx => hx⟩
      · intro hforce
        rw [hforce] at hnf
        simp at hnf
    · cases force with
      | false =>
        simp only [ingestDate]
        rw [if_neg hsc, if_neg (by rw [hh]; simp), if_neg (by rw [hd]; simp)]
        simp only [Bool.false_eq_true, if_false]
        obtain ⟨⟨ns, hs, hds⟩, ⟨np, hp, hdp⟩, ⟨nq, hq, hdq⟩⟩ :=
          foldl_processChain_append env date env.chains (db, ⟨0, 0, 0⟩, [])
        refine ⟨by trivial, logStatus_logSuccess _ _ _, ?_, ?_⟩
        · intro _
          refine ⟨?_, ?_, ?_⟩
          · intro x hx
            show x ∈ (logSuccess _ date _).stores
            rw [(logSuccess_tables _ _ _).1, hs]
            exact List.mem_append_left ns hx
          · intro x hx
            show x ∈ (logSuccess _ date _).products
            rw [(logSuccess_tables _ _ _).2.1, hp]
            exact List.mem_append_left np hx
          · intro x hx
            show x ∈ (logSuccess _ date _).prices
            rw [(logSuccess_tables _ _ _).2.2, hq]
            exact List.mem_append_left nq hx
        · intro hft
          cases hft
      | true =>
        simp only [ingestDate]
        rw [if_neg hsc, if_neg (by rw [hh]; simp), if_neg (by rw [hd]; simp)]
        simp only [if_true]
        obtain ⟨⟨ns, hs, hds⟩, ⟨np, hp, hdp⟩, ⟨nq, hq, hdq⟩⟩ :=
          foldl_processChain_append env date env.chains
            ({ db with
                stores := db.stores.filter (fun r => !(r.date = date)),
                products := db.products.filter (fun r => !(r.date = date)),
                prices := db.prices.filter (fun r => !(r.date = date)) }, ⟨0, 0, 0⟩, [])
        refine ⟨by trivial, logStatus_logSuccess _ _ _, ?_, ?_⟩
        · intro hft
          cases hft
        · intro _
          refine ⟨⟨ns, ?_, hds⟩, ⟨np, ?_, hdp⟩, ⟨nq, ?_, hdq⟩⟩
          · show (logSuccess _ date _).stores = _
            rw [(logSuccess_tables _ _ _).1, hs]
          · show (logSuccess _ date _).products = _
            rw [(logSuccess_tables _ _ _).2.1, hp]
          · show (logSuccess _ date _).prices = _
            rw [(logSuccess_tables _ _ _).2.2, hq]
  · intro env date force db hh hcase
    have hsc : ¬ (!force && alreadyIngested db date) = true := by
      rcases hcase with hf | ha
      · rw [hf]; simp
      · rw [ha]; simp
    simp only [ingestDate]
    rw [if_neg hsc, if_pos (by rw [hh]; simp)]
    exact ⟨rfl, logStatus_logError db date _⟩

/-- Claim C2 counterexample: one chain whose `stores.csv` inserts succeed and
whose `products.csv` insert throws — the failure is swallowed (a warning is
logged), the inserted store row is kept, and the ingestion log row says
`success`, contradicting the claimed rollback and `status='error'`. -/
theorem c2_ingest_counterexample :
    c2Env.insertErr ("products".data) ("a".data) 0 = true ∧
    (ingestDate c2Env ("2025-06-01".data) false dbEmpty).warnings = ["a".data] ∧
    (ingestDate c2Env ("2025-06-01".data) false dbEmpty).db.stores ≠ [] ∧
    logStatus (ingestDate c2Env ("2025-06-01".data) false dbEmpty).db
      ("2025-06-01".data) = some ("success".data) := by decide

/-- Witness for the corrected ingest claim at the concrete failing-insert
environment. -/
theorem c2_ingest_semantics_witness :
    (c2Env.headOk = true ∧ c2Env.dirOk = true) ∧
    logStatus (ingestDate c2Env ("2025-06-01".data) false dbEmpty).db
      ("2025-06-01".data) = some ("success".data) :=
  ⟨⟨rfl, rfl⟩,
   (c2_ingest_semantics.1 c2Env ("2025-06-01".data) false dbEmpty rfl rfl).2.1⟩

end KolkoKosta
